import Mathlib

/-!
# Raycasting: a shallow embedding of the grid map, the ray scans and the player

Source files embedded here: `map.go`, `utils.go`, `ray.go`, `player.go`, and
from `main.go` the constants and the strip-height arithmetic of
`Render3DProjectedWalls`.

Modelling conventions.

* Go `int` is a 64-bit two's complement integer.  `Map.AtPixel64` is `AtPixel`
  with every product and sum wrapped to that range (`wrap64`); `Map.AtPixel` is
  the same code on mathematical integers (`Int`), and the two agree on every map
  whose products `Columns * TileSize` and `Rows * TileSize` fit in an `int`
  (`AtPixel64_eq_AtPixel`), in particular on the built-in map and on every
  screen-sized map.  `/` on `int` is truncated division (`Int.tdiv`).
* Go `float64` values are elements of an ordered field `K` with a floor function
  (`ℚ` for evaluation, `ℝ` for the semantics).  The rounding of a `float64`
  operation is the field `Round` of the record `GoMath K`: it is applied to the
  addition of `NormalizeAngle` and to the angle arithmetic of `CastRays`;
  `math.Mod` is exact in IEEE-754 arithmetic and is defined exactly; the
  arithmetic of the scans is exact.  Infinities and NaN are not modelled.
* The transcendental functions of package `math` (`Cos`, `Sin`, `Tan`, `Hypot`)
  and the constant `Pi` are fields of `GoMath K` too; `Floor`, `Mod`, `Abs`,
  `Min` and the conversion `int(x)` are defined exactly.  Two instances are
  used: `realMath` (the real functions, `Pi = π`, no rounding) and
  `float64Math` (the real functions, `Pi` the `float64` constant `math.Pi`,
  `Round` the IEEE-754 rounding to the nearest `float64`, ties to even).
* A Go `(value, error)` result is an `Except Failure value`; a run-time panic is
  the separate failure `Failure.runtimePanic`, so that "returns an error" and
  "panics" stay apart.
* Loops that the source does not bound syntactically take a fuel argument that
  counts executions of the loop body; `none` means the fuel ran out.
* Keyboard and pointer state (`ebiten.IsKeyPressed`, `ebiten.CursorPosition`)
  are explicit arguments.
-/

set_option autoImplicit false
set_option maxRecDepth 8000
set_option linter.unusedSectionVars false

namespace Raycasting

/-! ## Constants (`main.go`) -/

/-- Number of tile columns of the built-in map. -/
def MapColumns : Int := 15
/-- Number of tile rows of the built-in map. -/
def MapRows : Int := 11
/-- Edge length of a tile in pixels. -/
def TileSize : Int := 64
/-- Width of the screen in pixels, `TileSize * MapColumns`. -/
def ScreenWidth : Int := TileSize * MapColumns
/-- Height of the screen in pixels, `TileSize * MapRows`. -/
def ScreenHeight : Int := TileSize * MapRows
/-- Tile kind of a walkable cell. -/
def TileEmpty : Int := 0
/-- Tile kind of a solid cell. -/
def TileWall : Int := 1
/-- Width in pixels of one projected wall strip. -/
def WallStripWidth : Int := 4
/-- Number of rays of a fan, `ScreenWidth / WallStripWidth`. -/
def NumRays : Nat := (Int.tdiv ScreenWidth WallStripWidth).toNat

/-! ## Failures -/

/-- The ways an operation can fail: the error value built by `AtPixel`, or a
run-time panic (slice index out of range, integer division by zero). -/
inductive Failure where
  | outOfRange (x y : Int)
  | runtimePanic
  deriving DecidableEq, Repr

/-- The failure is an `error` value returned to the caller (not a panic). -/
def Failure.isError : Failure → Bool
  | Failure.outOfRange _ _ => true
  | Failure.runtimePanic => false

/-! ## The grid map (`map.go`) -/

/-- The tile grid: row-major tile kinds, row count, column count, tile size. -/
structure Map where
  Grid : List Int
  Rows : Int
  Columns : Int
  TileSize : Int
  deriving DecidableEq, Repr

/-- The grid literal of `NewMap`, 11 rows of 15 tiles. -/
def builtinGrid : List Int :=
  [ 1, 1, 1, 1, 1, 1, 1, 1, 1, 1, 1, 1, 1, 1, 1,
    1, 0, 0, 0, 0, 0, 0, 0, 0, 0, 0, 0, 1, 0, 1,
    1, 0, 0, 0, 0, 1, 0, 0, 0, 0, 0, 0, 1, 0, 1,
    1, 1, 1, 1, 0, 0, 0, 0, 0, 0, 1, 0, 1, 0, 1,
    1, 0, 0, 0, 0, 0, 0, 0, 0, 0, 1, 0, 1, 0, 1,
    1, 0, 0, 0, 0, 0, 0, 0, 0, 1, 1, 1, 1, 0, 1,
    1, 0, 0, 0, 0, 0, 0, 0, 0, 0, 0, 0, 0, 0, 1,
    1, 0, 0, 0, 0, 0, 0, 0, 0, 0, 0, 0, 0, 0, 1,
    1, 1, 1, 1, 1, 1, 0, 0, 0, 1, 1, 1, 1, 0, 1,
    1, 0, 0, 0, 0, 0, 0, 0, 0, 0, 0, 0, 0, 0, 1,
    1, 1, 1, 1, 1, 1, 1, 1, 1, 1, 1, 1, 1, 1, 1 ]

/-- Source `NewMap(rows, columns, tileSize)`: the fixed grid literal with the given
dimensions. -/
def NewMap (rows columns tileSize : Int) : Map :=
  { Grid := builtinGrid, Rows := rows, Columns := columns, TileSize := tileSize }

/-- Source `(m *Map) AtPixel(x, y)`: the bounds check, then the tile stored at
`(y / TileSize) * Columns + x / TileSize`.  Indexing outside the slice and
dividing by zero panic. -/
def Map.AtPixel (m : Map) (x y : Int) : Except Failure Int :=
  if x < 0 ∨ y < 0 ∨ x ≥ m.Columns * m.TileSize ∨ y ≥ m.Rows * m.TileSize then
    Except.error (Failure.outOfRange x y)
  else if m.TileSize = 0 then
    Except.error Failure.runtimePanic
  else
    let gridX := Int.tdiv x m.TileSize
    let gridY := Int.tdiv y m.TileSize
    let idx := gridY * m.Columns + gridX
    if idx < 0 then
      Except.error Failure.runtimePanic
    else
      match m.Grid[idx.toNat]? with
      | some tile => Except.ok tile
      | none => Except.error Failure.runtimePanic

/-- The value a 64-bit `int` holds after an operation whose exact result is `z`:
the representative of `z` modulo `2^64` in `[-2^63, 2^63)`. -/
def wrap64 (z : Int) : Int := (z + 2 ^ 63) % 2 ^ 64 - 2 ^ 63

/-- Source `(m *Map) AtPixel(x, y)` on 64-bit integers: the products of the bounds
check and the index arithmetic wrap around.  The quotients `x / TileSize` and
`y / TileSize` of non-negative `x`, `y` cannot overflow. -/
def Map.AtPixel64 (m : Map) (x y : Int) : Except Failure Int :=
  if x < 0 ∨ y < 0 ∨ x ≥ wrap64 (m.Columns * m.TileSize) ∨
      y ≥ wrap64 (m.Rows * m.TileSize) then
    Except.error (Failure.outOfRange x y)
  else if m.TileSize = 0 then
    Except.error Failure.runtimePanic
  else
    let gridX := Int.tdiv x m.TileSize
    let gridY := Int.tdiv y m.TileSize
    let idx := wrap64 (wrap64 (gridY * m.Columns) + gridX)
    if idx < 0 then
      Except.error Failure.runtimePanic
    else
      match m.Grid[idx.toNat]? with
      | some tile => Except.ok tile
      | none => Except.error Failure.runtimePanic

/-- A map of one row and two columns whose tiles are `2^62` pixels wide: the
product `Columns * TileSize` is `2^63`, one more than the largest `int`. -/
def wideMap : Map := { Grid := [0, 0], Rows := 1, Columns := 2, TileSize := 2 ^ 62 }

/-- The result is an `error` value returned by the call. -/
def returnsError {α : Type} : Except Failure α → Prop
  | Except.error f => f.isError = true
  | Except.ok _ => False

/-! ## Floating-point values and package `math` -/

/-- The functions of package `math` that are not defined exactly below, the
constant `math.Pi`, and `Round`, the rounding that turns the exact result of a
`float64` operation into the `float64` the operation returns. -/
structure GoMath (K : Type) where
  Pi : K
  Cos : K → K
  Sin : K → K
  Tan : K → K
  Hypot : K → K → K
  Round : K → K

section Float

variable {K : Type} [LinearOrderedField K] [FloorRing K]

/-- The conversion `int(x)` of a `float64`: truncation toward zero. -/
def toInt (x : K) : Int := if 0 ≤ x then ⌊x⌋ else ⌈x⌉

/-- The function `math.Floor`. -/
def mathFloor (x : K) : K := ((⌊x⌋ : Int) : K)

/-- The function `math.Mod(x, y)`: the remainder of `x / y` with the sign of `x`. -/
def mathMod (x y : K) : K := x - y * ((toInt (x / y) : Int) : K)

/-! ## `utils.go` -/

/-- Source `NormalizeAngle(angle)`: `math.Mod(angle, 2π)`, shifted by `2π` when
negative; the shift is a `float64` addition. -/
def NormalizeAngle (M : GoMath K) (angle : K) : K :=
  let angle := mathMod angle (2 * M.Pi)
  if angle < 0 then M.Round (angle + 2 * M.Pi) else angle

/-! ## Rays (`ray.go`) -/

/-- A ray: origin, normalised angle, hit distance, direction flags and the
flag telling which scan gave the hit. -/
structure Ray (K : Type) where
  originX : K
  originY : K
  angle : K
  distance : K
  isRayFacingDown : Bool
  isRayFacingUp : Bool
  isRayFacingRight : Bool
  isRayFacingLeft : Bool
  isHitVertical : Bool

/-- Source `NewRay(x, y, angle)`: normalises the angle and derives the direction
flags; `distance` and `isHitVertical` keep their zero values. -/
def NewRay (M : GoMath K) (x y angle : K) : Ray K :=
  let a := NormalizeAngle M angle
  let down := decide (a > 0 ∧ a < M.Pi)
  let right := decide (a < (1 / 2) * M.Pi ∨ a > (3 / 2) * M.Pi)
  { originX := x, originY := y, angle := a, distance := 0,
    isRayFacingDown := down, isRayFacingUp := !down,
    isRayFacingRight := right, isRayFacingLeft := !right,
    isHitVertical := false }

/-- A result of a computation that takes fuel: `none` when the fuel ran out. -/
abbrev Run (α : Type) : Type := Option (Except Failure α)

/-- Source `traceRay`: steps from `(currX, currY)` by `(stepX, stepY)` while the point
is inside the screen; returns the point at which the sampled tile is a wall,
the error of the sampler, or `(0, 0)` after leaving the screen.  One unit of
fuel is spent per execution of the loop body. -/
def traceRay (stepX stepY offsetX offsetY : K) (sampleTile : K → K → Except Failure Int) :
    Nat → K → K → Run (K × K)
  | fuel, currX, currY =>
    if currX ≥ 0 ∧ currX < (ScreenWidth : K) ∧ currY ≥ 0 ∧ currY < (ScreenHeight : K) then
      match fuel with
      | 0 => none
      | fuel + 1 =>
        match sampleTile (currX + offsetX) (currY + offsetY) with
        | Except.error e => some (Except.error e)
        | Except.ok tile =>
          if tile = TileWall then some (Except.ok (currX, currY))
          else traceRay stepX stepY offsetX offsetY sampleTile fuel
            (currX + stepX) (currY + stepY)
    else some (Except.ok (0, 0))

/-- The loop of `traceRay` with its exit recorded: `some p` when it stopped on
a wall at `p`, `none` when the point left the screen without a wall. -/
def traceHit (stepX stepY offsetX offsetY : K) (sampleTile : K → K → Except Failure Int) :
    Nat → K → K → Run (Option (K × K))
  | fuel, currX, currY =>
    if currX ≥ 0 ∧ currX < (ScreenWidth : K) ∧ currY ≥ 0 ∧ currY < (ScreenHeight : K) then
      match fuel with
      | 0 => none
      | fuel + 1 =>
        match sampleTile (currX + offsetX) (currY + offsetY) with
        | Except.error e => some (Except.error e)
        | Except.ok tile =>
          if tile = TileWall then some (Except.ok (some (currX, currY)))
          else traceHit stepX stepY offsetX offsetY sampleTile fuel
            (currX + stepX) (currY + stepY)
    else some (Except.ok none)

/-- The arguments `(startX, startY, stepX, stepY, offsetX, offsetY)` that a scan
passes to `traceRay`. -/
structure ScanArgs (K : Type) where
  startX : K
  startY : K
  stepX : K
  stepY : K
  offsetX : K
  offsetY : K

/-- The setup of `findHorizontalIntersects`: first horizontal grid line met by
the ray and the step from one such line to the next. -/
def Ray.horizontalArgs (M : GoMath K) (r : Ray K) : ScanArgs K :=
  let yIntercept := mathFloor (r.originY / (TileSize : K)) * (TileSize : K)
  let yIntercept := if r.isRayFacingDown then yIntercept + (TileSize : K) else yIntercept
  let tanAngle := M.Tan r.angle
  let tanAngle := if tanAngle = 0 then 1 / 10000 else tanAngle
  let xIntercept := r.originX + (yIntercept - r.originY) / tanAngle
  let yStep : K := (TileSize : K)
  let yStep := if r.isRayFacingUp then yStep * -1 else yStep
  let xStep := (TileSize : K) / tanAngle
  let xStep :=
    if (r.isRayFacingLeft ∧ xStep > 0) ∨ (r.isRayFacingRight ∧ xStep < 0) then xStep * -1
    else xStep
  let offsetY : K := if r.isRayFacingUp then -1 else 0
  { startX := xIntercept, startY := yIntercept, stepX := xStep, stepY := yStep,
    offsetX := 0, offsetY := offsetY }

/-- The setup of `findVerticalIntersects`: first vertical grid line met by the
ray and the step from one such line to the next. -/
def Ray.verticalArgs (M : GoMath K) (r : Ray K) : ScanArgs K :=
  let xIntercept := mathFloor (r.originX / (TileSize : K)) * (TileSize : K)
  let xIntercept := if r.isRayFacingRight then xIntercept + (TileSize : K) else xIntercept
  let tanAngle := M.Tan r.angle
  let tanAngle := if tanAngle = 0 then 1 / 10000 else tanAngle
  let yIntercept := r.originY + (xIntercept - r.originX) * tanAngle
  let xStep : K := (TileSize : K)
  let xStep := if r.isRayFacingLeft then xStep * -1 else xStep
  let yStep := (TileSize : K) * tanAngle
  let yStep :=
    if (r.isRayFacingUp ∧ yStep > 0) ∨ (r.isRayFacingDown ∧ yStep < 0) then yStep * -1
    else yStep
  let offsetX : K := if r.isRayFacingLeft then -1 else 0
  { startX := xIntercept, startY := yIntercept, stepX := xStep, stepY := yStep,
    offsetX := offsetX, offsetY := 0 }

/-- The sampler both scans pass to `traceRay`: `m.AtPixel(int(x), int(y))`. -/
def sampleAt (m : Map) (x y : K) : Except Failure Int := m.AtPixel (toInt x) (toInt y)

/-- The call of `traceRay` on the arguments a scan has set up. -/
def ScanArgs.trace (a : ScanArgs K) (fuel : Nat) (m : Map) : Run (K × K) :=
  traceRay a.stepX a.stepY a.offsetX a.offsetY (sampleAt m) fuel a.startX a.startY

/-- The call of `traceHit` on the arguments a scan has set up. -/
def ScanArgs.hit (a : ScanArgs K) (fuel : Nat) (m : Map) : Run (Option (K × K)) :=
  traceHit a.stepX a.stepY a.offsetX a.offsetY (sampleAt m) fuel a.startX a.startY

/-- Source `findHorizontalIntersects`: its setup handed to `traceRay`. -/
def Ray.findHorizontalIntersects (M : GoMath K) (fuel : Nat) (r : Ray K) (m : Map) :
    Run (K × K) :=
  (r.horizontalArgs M).trace fuel m

/-- Source `findVerticalIntersects`: its setup handed to `traceRay`. -/
def Ray.findVerticalIntersects (M : GoMath K) (fuel : Nat) (r : Ray K) (m : Map) :
    Run (K × K) :=
  (r.verticalArgs M).trace fuel m

/-- The first half of `Cast`: both scans, then the hit distances `hd` and `vd`
of their result points. -/
def Ray.hitDistances (M : GoMath K) (fuel : Nat) (r : Ray K) (m : Map) : Run (K × K) :=
  match r.findHorizontalIntersects M fuel m with
  | none => none
  | some (Except.error e) => some (Except.error e)
  | some (Except.ok (hx, hy)) =>
    match r.findVerticalIntersects M fuel m with
    | none => none
    | some (Except.error e) => some (Except.error e)
    | some (Except.ok (vx, vy)) =>
      let hd := M.Hypot (hx - r.originX) (hy - r.originY)
      let vd := M.Hypot (vx - r.originX) (vy - r.originY)
      some (Except.ok (hd, vd))

/-- Source `Cast`: stores the smaller of the two hit distances and the flag
`isHitVertical`; the ray is untouched when a scan returns an error. -/
def Ray.Cast (M : GoMath K) (fuel : Nat) (r : Ray K) (m : Map) : Run (Ray K) :=
  match r.hitDistances M fuel m with
  | none => none
  | some (Except.error e) => some (Except.error e)
  | some (Except.ok (hd, vd)) =>
    let epsilon : K := 1 / 10000
    let isHitVertical :=
      if |vd - hd| < epsilon then decide (vd < hd) else decide (vd < hd)
    some (Except.ok { r with isHitVertical := isHitVertical, distance := min hd vd })

/-! ## The player (`player.go`) -/

/-- The player: position, radius, intents, orientation, speeds and the ray
fan.  The colour, which no operation reads, is left out. -/
structure Player (K : Type) where
  x : K
  y : K
  radius : K
  turnDirection : Int
  walkDirection : Int
  rotationAngle : K
  moveSpeed : K
  rotationSpeed : K
  rays : List (Ray K)

/-- Source `NewPlayer(x, y, radius, clr)`. -/
def NewPlayer (M : GoMath K) (x y radius : K) : Player K :=
  { x := x, y := y, radius := radius, turnDirection := 0, walkDirection := 0,
    rotationAngle := M.Pi / 2, moveSpeed := 2, rotationSpeed := 2 * (M.Pi / 180),
    rays := [] }

/-- The loop of `CastRays` with `n` iterations left: casts a ray at `rayAngle`,
appends it, advances the angle by `fovAngle / numRays`, a `float64` division
followed by a `float64` addition (the conversion `float64(numRays)` is exact
below `2^53`).  Returns the fan built so far and the error that stopped the
loop, if any.  (For `numRays = 0` the step is a division by zero, an infinity
or NaN in Go, which lies outside the arithmetic used here.) -/
def castLoop (M : GoMath K) (fuel : Nat) (fovAngle : K) (numRays : Int) (m : Map)
    (x y : K) : Nat → K → List (Ray K) → Option (List (Ray K) × Option Failure)
  | 0, _, rays => some (rays, none)
  | n + 1, rayAngle, rays =>
    match (NewRay M x y rayAngle).Cast M fuel m with
    | none => none
    | some (Except.error e) => some (rays, some e)
    | some (Except.ok ray) =>
      castLoop M fuel fovAngle numRays m x y n
        (M.Round (rayAngle + M.Round (fovAngle / (numRays : K)))) (rays ++ [ray])

/-- Source `CastRays(fovAngle, numRays, m)`: empties the fan and runs the loop, whose
bound is the constant `NumRays`, from the angle `rotationAngle - fovAngle / 2`
(a `float64` division and subtraction).  Returns the player and the error, if
any. -/
def Player.CastRays (M : GoMath K) (fuel : Nat) (fovAngle : K) (numRays : Int) (m : Map)
    (p : Player K) : Option (Player K × Option Failure) :=
  match castLoop M fuel fovAngle numRays m p.x p.y NumRays
      (M.Round (p.rotationAngle - M.Round (fovAngle / 2))) [] with
  | none => none
  | some (rays, err) => some ({ p with rays := rays }, err)

/-- The value of the variable `rayAngle` of `CastRays` when ray `i` is cast:
`a0` at ray 0, then one rounded addition of the step `s` per ray. -/
def rayAngleAt (M : GoMath K) (a0 s : K) : Nat → K
  | 0 => a0
  | i + 1 => M.Round (rayAngleAt M a0 s i + s)

/-- The point a scan hands to `Cast`: the wall point, or the sentinel `(0, 0)`
of `traceRay` when the loop left the screen without a wall. -/
def hitPoint (h : Option (K × K)) : K × K := h.getD (0, 0)

/-- The one-row map `[Wall, Empty, Empty, Wall]` with tile size 64. -/
def syntheticRow : Map := { Grid := [1, 0, 0, 1], Rows := 1, Columns := 4, TileSize := 64 }

/-- The player of `NewPlayer(x, y, 4, clr)` turned to orientation `θ` and given
the walk intent `walk`. -/
def playerAt (M : GoMath K) (x y θ : K) (walk : Int) : Player K :=
  { NewPlayer M x y 4 with rotationAngle := θ, walkDirection := walk }

/-! ## Projection (`main.go`) and auxiliary notions -/

/-- The constant `FovAngle`, 60 degrees in radians. -/
def FovAngle (M : GoMath K) : K := 60 * M.Pi / 180

/-- In `Render3DProjectedWalls`: the ray distance with the fish-eye correction,
`r.distance * math.Cos(r.angle - rotationAngle)`. -/
def correctedDistance (M : GoMath K) (r : Ray K) (rotationAngle : K) : K :=
  r.distance * M.Cos (r.angle - rotationAngle)

/-- In `Render3DProjectedWalls`: the distance to the projection plane,
`(ScreenWidth / 2) / math.Tan(FovAngle / 2)`. -/
def distanceProjectionPlane (M : GoMath K) : K :=
  ((Int.tdiv ScreenWidth 2 : Int) : K) / M.Tan (FovAngle M / 2)

/-- In `Render3DProjectedWalls`: the height of the wall strip of a ray whose
corrected distance is `rayDistance`,
`(TileSize / rayDistance) * distanceProjectionPlane`. -/
def wallStripHeight (M : GoMath K) (rayDistance : K) : K :=
  ((TileSize : Int) : K) / rayDistance * distanceProjectionPlane M

/-- The loop condition of `traceRay`: the point is inside the screen. -/
def inScreen (x y : K) : Prop :=
  x ≥ 0 ∧ x < (ScreenWidth : K) ∧ y ≥ 0 ∧ y < (ScreenHeight : K)

/-- A map of 11 rows and 15 columns of tile size 64 with every tile empty. -/
def openMap : Map :=
  { Grid := List.replicate 165 0, Rows := 11, Columns := 15, TileSize := 64 }

/-- The map has a positive tile size, `Rows * Columns` tiles, and the pixel
extent of the screen. -/
def Map.fitsScreen (m : Map) : Prop :=
  0 < m.TileSize ∧ (m.Grid.length : Int) = m.Rows * m.Columns ∧
    m.Columns * m.TileSize = ScreenWidth ∧ m.Rows * m.TileSize = ScreenHeight

/-- The facts about `Tan`, `Sin` and `Cos` at a normalised angle `a` that the
geometry of the scans relies on: `Tan = Sin / Cos`, `Sin` is positive exactly
on the angles facing down (`0 < a < π`), `Cos` is positive exactly on the
angles facing right (`a < π/2` or `a > 3π/2`). -/
structure GoMath.Trig (M : GoMath K) (a : K) : Prop where
  tan_eq : M.Tan a = M.Sin a / M.Cos a
  sin_pos : (0 < a ∧ a < M.Pi) → 0 < M.Sin a
  sin_nonpos : ¬ (0 < a ∧ a < M.Pi) → M.Sin a ≤ 0
  cos_pos : (a < 1 / 2 * M.Pi ∨ a > 3 / 2 * M.Pi) → 0 < M.Cos a
  cos_nonpos : ¬ (a < 1 / 2 * M.Pi ∨ a > 3 / 2 * M.Pi) → M.Cos a ≤ 0

/-- The facts about package `math` that results on concrete rays rely on:
`Pi` is positive, `Tan(0) = 0`, and `Hypot(p, q)` is the non-negative root of
`p² + q²`. -/
structure GoMath.Exact (M : GoMath K) : Prop where
  pi_pos : 0 < M.Pi
  tan_zero : M.Tan 0 = 0
  hypot_nonneg : ∀ p q : K, 0 ≤ M.Hypot p q
  hypot_sq : ∀ p q : K, M.Hypot p q ^ 2 = p ^ 2 + q ^ 2

end Float

/-- Package `math` over the real numbers: the idealised semantics of the
`float64` functions, without rounding. -/
noncomputable def realMath : GoMath ℝ :=
  { Pi := Real.pi, Cos := Real.cos, Sin := Real.sin, Tan := Real.tan,
    Hypot := fun p q => Real.sqrt (p ^ 2 + q ^ 2), Round := fun x => x }

/-- Truncated division by a positive tile size sends every pixel of the
footprint of tile `c` to `c`. -/
theorem tdiv_footprint (x c t : Int) (hc : 0 ≤ c) (ht : 0 < t)
    (hlo : c * t ≤ x) (hhi : x < (c + 1) * t) : Int.tdiv x t = c := by
  have hx : 0 ≤ x := le_trans (mul_nonneg hc ht.le) hlo
  rw [Int.tdiv_eq_ediv hx ht.le]
  apply le_antisymm
  · have : x / t < c + 1 := (Int.ediv_lt_iff_lt_mul ht).mpr hhi
    omega
  · exact (Int.le_ediv_iff_mul_le ht).mpr hlo

/-- On mathematical integers (no wrap-around): on a well-formed map every pixel
inside the footprint of an in-bounds tile `(col, row)` is answered by `AtPixel`
with the stored tile `Grid[row * Columns + col]` and no error. -/
theorem AtPixel_footprint (m : Map) (col row x y : Int)
    (_hR : 0 < m.Rows) (hC : 0 < m.Columns) (hT : 0 < m.TileSize)
    (hlen : (m.Grid.length : Int) = m.Rows * m.Columns)
    (hcol : 0 ≤ col ∧ col < m.Columns) (hrow : 0 ≤ row ∧ row < m.Rows)
    (hx : col * m.TileSize ≤ x ∧ x < (col + 1) * m.TileSize)
    (hy : row * m.TileSize ≤ y ∧ y < (row + 1) * m.TileSize) :
    ∃ tile, m.Grid[(row * m.Columns + col).toNat]? = some tile ∧
      m.AtPixel x y = Except.ok tile := by
  have hgx := tdiv_footprint x col m.TileSize hcol.1 hT hx.1 hx.2
  have hgy := tdiv_footprint y row m.TileSize hrow.1 hT hy.1 hy.2
  have hx0 : 0 ≤ x := le_trans (mul_nonneg hcol.1 hT.le) hx.1
  have hy0 : 0 ≤ y := le_trans (mul_nonneg hrow.1 hT.le) hy.1
  have hxC : x < m.Columns * m.TileSize :=
    lt_of_lt_of_le hx.2 (mul_le_mul_of_nonneg_right (by omega) hT.le)
  have hyR : y < m.Rows * m.TileSize :=
    lt_of_lt_of_le hy.2 (mul_le_mul_of_nonneg_right (by omega) hT.le)
  have hidx0 : 0 ≤ row * m.Columns + col :=
    add_nonneg (mul_nonneg hrow.1 hC.le) hcol.1
  have hidx : row * m.Columns + col < m.Rows * m.Columns := by
    have h1 : (row + 1) * m.Columns ≤ m.Rows * m.Columns :=
      mul_le_mul_of_nonneg_right (by omega) hC.le
    have h2 : (row + 1) * m.Columns = row * m.Columns + m.Columns := by ring
    omega
  have hlt : (row * m.Columns + col).toNat < m.Grid.length := by
    have : ((row * m.Columns + col).toNat : Int) < (m.Grid.length : Int) := by
      rw [Int.toNat_of_nonneg hidx0, hlen]; exact hidx
    exact_mod_cast this
  refine ⟨m.Grid[(row * m.Columns + col).toNat], List.getElem?_eq_getElem hlt, ?_⟩
  have hguard : ¬ (x < 0 ∨ y < 0 ∨ x ≥ m.Columns * m.TileSize ∨
      y ≥ m.Rows * m.TileSize) := by omega
  have hT0 : m.TileSize ≠ 0 := ne_of_gt hT
  have hneg : ¬ (row * m.Columns + col < 0) := by omega
  simp only [Map.AtPixel, hguard, hT0, if_false, hgx, hgy, hneg,
    List.getElem?_eq_getElem hlt]

/-! ## Facts about package `math` and `NormalizeAngle` -/

section FloatFacts

variable {K : Type} [LinearOrderedField K] [FloorRing K]

/-- The angle zero is its own normal form. -/
theorem NormalizeAngle_zero (M : GoMath K) : NormalizeAngle M 0 = 0 := by
  simp [NormalizeAngle, mathMod, toInt]

/-- The real-number instance of package `math` has the facts of `GoMath.Exact`. -/
theorem realMath_exact : realMath.Exact where
  pi_pos := Real.pi_pos
  tan_zero := Real.tan_zero
  hypot_nonneg := fun _ _ => Real.sqrt_nonneg _
  hypot_sq := fun p q => Real.sq_sqrt (add_nonneg (sq_nonneg p) (sq_nonneg q))

/-! ## The ray scans -/

/-- The loop `traceRay` is `traceHit` with a missing hit replaced by the sentinel `(0, 0)`. -/
theorem traceRay_eq_traceHit (stepX stepY offsetX offsetY : K)
    (sampleTile : K → K → Except Failure Int) (fuel : Nat) (x y : K) :
    traceRay stepX stepY offsetX offsetY sampleTile fuel x y =
      (traceHit stepX stepY offsetX offsetY sampleTile fuel x y).map (Except.map hitPoint) := by
  induction fuel generalizing x y with
  | zero =>
    unfold traceRay traceHit
    split_ifs <;> rfl
  | succ n ih =>
    unfold traceRay traceHit
    split_ifs with hg
    · dsimp only
      cases hs : sampleTile (x + offsetX) (y + offsetY) with
      | error e => rfl
      | ok tile =>
        dsimp only
        split_ifs
        · rfl
        · exact ih _ _
    · rfl

/-- Outside the screen the loop exits at once, whatever the fuel. -/
theorem traceHit_out (stepX stepY offsetX offsetY : K)
    (sampleTile : K → K → Except Failure Int) (fuel : Nat) (x y : K)
    (hg : ¬ (x ≥ 0 ∧ x < (ScreenWidth : K) ∧ y ≥ 0 ∧ y < (ScreenHeight : K))) :
    traceHit stepX stepY offsetX offsetY sampleTile fuel x y = some (Except.ok none) := by
  unfold traceHit
  rw [if_neg hg]

/-- Inside the screen, a wall sample stops the loop at the current point. -/
theorem traceHit_wall (stepX stepY offsetX offsetY : K)
    (sampleTile : K → K → Except Failure Int) (fuel : Nat) (x y : K)
    (hg : x ≥ 0 ∧ x < (ScreenWidth : K) ∧ y ≥ 0 ∧ y < (ScreenHeight : K))
    (hs : sampleTile (x + offsetX) (y + offsetY) = Except.ok TileWall) :
    traceHit stepX stepY offsetX offsetY sampleTile (fuel + 1) x y =
      some (Except.ok (some (x, y))) := by
  unfold traceHit
  rw [if_pos hg]
  simp only [hs, if_true]

/-- Inside the screen, a sample other than a wall advances the point by one step. -/
theorem traceHit_empty (stepX stepY offsetX offsetY : K)
    (sampleTile : K → K → Except Failure Int) (fuel : Nat) (x y : K) (tile : Int)
    (hg : x ≥ 0 ∧ x < (ScreenWidth : K) ∧ y ≥ 0 ∧ y < (ScreenHeight : K))
    (hs : sampleTile (x + offsetX) (y + offsetY) = Except.ok tile)
    (ht : tile ≠ TileWall) :
    traceHit stepX stepY offsetX offsetY sampleTile (fuel + 1) x y =
      traceHit stepX stepY offsetX offsetY sampleTile fuel (x + stepX) (y + stepY) := by
  conv_lhs => unfold traceHit
  rw [if_pos hg]
  simp only [hs, if_neg ht]

/-- The ray of angle 0 faces up and right. -/
theorem NewRay_zero (M : GoMath K) (hM : M.Exact) (x y : K) :
    NewRay M x y 0 =
      { originX := x, originY := y, angle := 0, distance := 0,
        isRayFacingDown := false, isRayFacingUp := true,
        isRayFacingRight := true, isRayFacingLeft := false, isHitVertical := false } := by
  have := hM.pi_pos
  simp [NewRay, NormalizeAngle_zero, hM.pi_pos]

/-- The sampler at a point whose integer parts are known. -/
theorem sampleAt_eval (m : Map) (x y : K) (i j : Int) (hi : toInt x = i) (hj : toInt y = j) :
   sampleAt m x y = m.AtPixel i j := by
  rw [sampleAt, hi, hj]


/-- The result of a scan (`traceRay`) from its recorded exit (`traceHit`). -/
theorem ScanArgs.trace_of_hit (a : ScanArgs K) (fuel : Nat) (m : Map) (h : Option (K × K))
    (hh : a.hit fuel m = some (Except.ok h)) :
    a.trace fuel m = some (Except.ok (hitPoint h)) := by
  unfold ScanArgs.hit at hh
  simp only [ScanArgs.trace, traceRay_eq_traceHit, hh, Option.map, Except.map]

/-- The hit distances of `Cast` from the recorded exits of the two scans. -/
theorem hitDistances_of_hits (M : GoMath K) (fuel : Nat) (r : Ray K) (m : Map)
    (hh vh : Option (K × K))
    (hH : (r.horizontalArgs M).hit fuel m = some (Except.ok hh))
    (hV : (r.verticalArgs M).hit fuel m = some (Except.ok vh)) :
    r.hitDistances M fuel m = some (Except.ok
      (M.Hypot ((hitPoint hh).1 - r.originX) ((hitPoint hh).2 - r.originY),
       M.Hypot ((hitPoint vh).1 - r.originX) ((hitPoint vh).2 - r.originY))) := by
  have h1 := ScanArgs.trace_of_hit _ fuel m hh hH
  have h2 := ScanArgs.trace_of_hit _ fuel m vh hV
  simp only [Ray.hitDistances, Ray.findHorizontalIntersects, Ray.findVerticalIntersects, h1, h2]

/-- The result of `Cast` from the two hit distances. -/
theorem Cast_of_hitDistances (M : GoMath K) (fuel : Nat) (r : Ray K) (m : Map) (hd vd : K)
    (h : r.hitDistances M fuel m = some (Except.ok (hd, vd))) :
    r.Cast M fuel m = some (Except.ok
      { r with isHitVertical := decide (vd < hd), distance := min hd vd }) := by
  simp only [Ray.Cast, h, ite_self]

/-- A non-negative number is at least `b` when its square is at least `b²`. -/
theorem le_of_sq_le_sq_nonneg (a b : K) (ha : 0 ≤ a) (h : b ^ 2 ≤ a ^ 2) : b ≤ a := by
  by_contra hlt
  push_neg at hlt
  nlinarith

/-- A non-negative number is below a positive `b` when its square is below `b²`. -/
theorem lt_of_sq_lt_sq_pos (a b : K) (hb : 0 < b) (h : a ^ 2 < b ^ 2) : a < b := by
  by_contra hge
  push_neg at hge
  nlinarith

/-- The scans of the ray from (96, 32) at angle 0 on the synthetic row: the
horizontal scan starts left of the screen and finds nothing, the vertical scan
stops on the wall at x = 192. -/
theorem syntheticRow_hits (M : GoMath K) (hM : M.Exact) (fuel : Nat) :
    ((NewRay M 96 32 0).horizontalArgs M).hit (fuel + 2) syntheticRow = some (Except.ok none) ∧
    ((NewRay M 96 32 0).verticalArgs M).hit (fuel + 2) syntheticRow =
      some (Except.ok (some (192, 319968 / 10000))) := by
  constructor
  · have hargs : (NewRay M 96 32 0).horizontalArgs M =
        { startX := -319904, startY := 0, stepX := 640000, stepY := -64,
          offsetX := 0, offsetY := -1 } := by
      rw [NewRay_zero M hM]
      simp [Ray.horizontalArgs, hM.tan_zero, mathFloor, TileSize]
      norm_num
    rw [hargs]
    exact traceHit_out _ _ _ _ _ _ _ _ (by norm_num)
  · have hargs : (NewRay M 96 32 0).verticalArgs M =
        { startX := 128, startY := 320032 / 10000, stepX := 64, stepY := -(64 / 10000),
          offsetX := 0, offsetY := 0 } := by
      rw [NewRay_zero M hM]
      simp [Ray.verticalArgs, hM.tan_zero, mathFloor, TileSize]
      norm_num
    rw [hargs]
    simp only [ScanArgs.hit]
    rw [traceHit_empty _ _ _ _ _ _ _ _ 0
      (by norm_num [ScreenWidth, ScreenHeight, TileSize, MapColumns, MapRows])
      (by rw [sampleAt_eval syntheticRow _ _ 128 32 (by norm_num [toInt])
            (by norm_num [toInt])]; rfl)
      (by decide)]
    rw [traceHit_wall _ _ _ _ _ _ _ _
      (by norm_num [ScreenWidth, ScreenHeight, TileSize, MapColumns, MapRows])
      (by rw [sampleAt_eval syntheticRow _ _ 192 31 (by norm_num [toInt])
            (by norm_num [toInt, Int.floor_eq_iff])]; rfl)]
    norm_num

/-- C3: on the one-row map `[Wall, Empty, Empty, Wall]` with tile size 64 the ray
of `NewRay(96, 32, 0)` (centre of the second cell, angle 0) is cast without
error and its distance is within 1e-3 of 96 = 1.5 * 64. -/
theorem Cast_syntheticRow (M : GoMath K) (hM : M.Exact) (fuel : Nat) :
    ∃ r, (NewRay M 96 32 0).Cast M (fuel + 2) syntheticRow = some (Except.ok r) ∧
      |r.distance - 96| < 1 / 1000 := by
  obtain ⟨hH, hV⟩ := syntheticRow_hits M hM fuel
  have hD := hitDistances_of_hits M (fuel + 2) (NewRay M 96 32 0) syntheticRow _ _ hH hV
  refine ⟨_, Cast_of_hitDistances M _ _ _ _ _ hD, ?_⟩
  rw [NewRay_zero M hM]
  simp only [hitPoint, Option.getD]
  have hh0 := hM.hypot_nonneg ((0 : K) - 96) (0 - 32)
  have hh2 := hM.hypot_sq ((0 : K) - 96) (0 - 32)
  have hv0 := hM.hypot_nonneg ((192 : K) - 96) (319968 / 10000 - 32)
  have hv2 := hM.hypot_sq ((192 : K) - 96) (319968 / 10000 - 32)
  have hh : (96 : K) ≤ M.Hypot (0 - 96) (0 - 32) :=
    le_of_sq_le_sq_nonneg _ _ hh0 (by rw [hh2]; norm_num)
  have hv : (96 : K) ≤ M.Hypot (192 - 96) (319968 / 10000 - 32) :=
    le_of_sq_le_sq_nonneg _ _ hv0 (by rw [hv2]; norm_num)
  have hv' : M.Hypot (192 - 96) (319968 / 10000 - 32) < (96 : K) + 1 / 1000 :=
    lt_of_sq_lt_sq_pos _ _ (by norm_num) (by rw [hv2]; norm_num)
  rw [abs_lt]
  constructor
  · have : (96 : K) ≤ min (M.Hypot (0 - 96) (0 - 32))
        (M.Hypot (192 - 96) (319968 / 10000 - 32)) := le_min hh hv
    linarith
  · have : min (M.Hypot (0 - 96) (0 - 32)) (M.Hypot (192 - 96) (319968 / 10000 - 32))
        ≤ M.Hypot (192 - 96) (319968 / 10000 - 32) := min_le_right _ _
    linarith

/-- Witness for C3: the real-number `math`, fuel 2. -/
theorem Cast_syntheticRow_witness :
    ∃ r, (NewRay realMath 96 32 0).Cast realMath (0 + 2) syntheticRow = some (Except.ok r) ∧
      |r.distance - 96| < 1 / 1000 :=
  Cast_syntheticRow realMath realMath_exact 0

/-- The scans of the ray from (105, 140) at angle 0 on the built-in map: the
horizontal scan starts left of the screen and finds nothing, the vertical scan
stops on the wall tile (column 5, row 2) at x = 320. -/
theorem builtin_hits (M : GoMath K) (hM : M.Exact) (fuel : Nat) :
    ((NewRay M 105 140 0).horizontalArgs M).hit (fuel + 4) (NewMap 11 15 64) =
      some (Except.ok none) ∧
    ((NewRay M 105 140 0).verticalArgs M).hit (fuel + 4) (NewMap 11 15 64) =
      some (Except.ok (some (320, 1399831 / 10000))) := by
  constructor
  · have hargs : (NewRay M 105 140 0).horizontalArgs M =
        { startX := -119895, startY := 128, stepX := 640000, stepY := -64,
          offsetX := 0, offsetY := -1 } := by
      rw [NewRay_zero M hM]
      simp [Ray.horizontalArgs, hM.tan_zero, mathFloor, TileSize]
      norm_num
    rw [hargs]
    exact traceHit_out _ _ _ _ _ _ _ _ (by norm_num)
  · have hargs : (NewRay M 105 140 0).verticalArgs M =
        { startX := 128, startY := 1400023 / 10000, stepX := 64, stepY := -(64 / 10000),
          offsetX := 0, offsetY := 0 } := by
      rw [NewRay_zero M hM]
      simp [Ray.verticalArgs, hM.tan_zero, mathFloor, TileSize]
      norm_num
    rw [hargs]
    simp only [ScanArgs.hit]
    rw [traceHit_empty _ _ _ _ _ _ _ _ 0
      (by norm_num [ScreenWidth, ScreenHeight, TileSize, MapColumns, MapRows])
      (by rw [sampleAt_eval (NewMap 11 15 64) _ _ 128 140 (by norm_num [toInt])
            (by norm_num [toInt, Int.floor_eq_iff])]; rfl)
      (by decide)]
    rw [traceHit_empty _ _ _ _ _ _ _ _ 0
      (by norm_num [ScreenWidth, ScreenHeight, TileSize, MapColumns, MapRows])
      (by rw [sampleAt_eval (NewMap 11 15 64) _ _ 192 139 (by norm_num [toInt])
            (by norm_num [toInt, Int.floor_eq_iff])]; rfl)
      (by decide)]
    rw [traceHit_empty _ _ _ _ _ _ _ _ 0
      (by norm_num [ScreenWidth, ScreenHeight, TileSize, MapColumns, MapRows])
      (by rw [sampleAt_eval (NewMap 11 15 64) _ _ 256 139 (by norm_num [toInt])
            (by norm_num [toInt, Int.floor_eq_iff])]; rfl)
      (by decide)]
    rw [traceHit_wall _ _ _ _ _ _ _ _
      (by norm_num [ScreenWidth, ScreenHeight, TileSize, MapColumns, MapRows])
      (by rw [sampleAt_eval (NewMap 11 15 64) _ _ 320 139 (by norm_num [toInt])
            (by norm_num [toInt, Int.floor_eq_iff])]; rfl)]
    norm_num

/-- The cast of the ray from (105, 140) at angle 0 on the built-in map: `hd` is
175, the distance from the origin to the sentinel `(0, 0)`; `vd`, the distance
to the wall, is at least 215; the stored distance is 175. -/
theorem builtin_cast (M : GoMath K) (hM : M.Exact) (fuel : Nat) :
    ∃ vd r, (NewRay M 105 140 0).hitDistances M (fuel + 4) (NewMap 11 15 64) =
        some (Except.ok (175, vd)) ∧
      vd = M.Hypot (320 - 105) (1399831 / 10000 - 140) ∧ 215 ≤ vd ∧
      (NewRay M 105 140 0).Cast M (fuel + 4) (NewMap 11 15 64) = some (Except.ok r) ∧
      r.distance = 175 := by
  obtain ⟨hH, hV⟩ := builtin_hits M hM fuel
  have hD := hitDistances_of_hits M (fuel + 4) (NewRay M 105 140 0) (NewMap 11 15 64) _ _ hH hV
  have hh0 := hM.hypot_nonneg ((0 : K) - 105) (0 - 140)
  have hh2 := hM.hypot_sq ((0 : K) - 105) (0 - 140)
  have hv0 := hM.hypot_nonneg ((320 : K) - 105) (1399831 / 10000 - 140)
  have hv2 := hM.hypot_sq ((320 : K) - 105) (1399831 / 10000 - 140)
  have hh : M.Hypot ((0 : K) - 105) (0 - 140) = 175 := by
    apply le_antisymm
    · by_contra hlt
      push_neg at hlt
      nlinarith
    · exact le_of_sq_le_sq_nonneg _ _ hh0 (by rw [hh2]; norm_num)
  have hv : (215 : K) ≤ M.Hypot (320 - 105) (1399831 / 10000 - 140) :=
    le_of_sq_le_sq_nonneg _ _ hv0 (by rw [hv2]; norm_num)
  rw [NewRay_zero M hM] at hD ⊢
  simp only [hitPoint, Option.getD, hh] at hD
  refine ⟨_, _, hD, rfl, hv, Cast_of_hitDistances M _ _ _ _ _ hD, ?_⟩
  simp only
  exact min_eq_left (by linarith)

/-- C4 fails on the built-in map for the ray from (105, 140) at angle 0: the
horizontal scan finds no wall, the vertical scan stops on a wall at distance at
least 215, and `Cast` succeeds storing the distance 175, the distance from the
origin to the sentinel point `(0, 0)`. -/
theorem Cast_stores_sentinel_distance :
    ((NewRay realMath 105 140 0).horizontalArgs realMath).hit 4 (NewMap 11 15 64) =
      some (Except.ok none) ∧
    ((NewRay realMath 105 140 0).verticalArgs realMath).hit 4 (NewMap 11 15 64) =
      some (Except.ok (some (320, 1399831 / 10000))) ∧
    (215 : ℝ) ≤ realMath.Hypot (320 - 105) (1399831 / 10000 - 140) ∧
    ∃ r, (NewRay realMath 105 140 0).Cast realMath 4 (NewMap 11 15 64) = some (Except.ok r) ∧
      r.distance = 175 := by
  obtain ⟨hH, hV⟩ := builtin_hits realMath realMath_exact 0
  obtain ⟨vd, r, _, hvd, hle, hC, hr⟩ := builtin_cast realMath realMath_exact 0
  exact ⟨hH, hV, hvd ▸ hle, r, hC, hr⟩

/-- C5 fails on the built-in map for the ray from (105, 140) at angle 0: the
horizontal scan leaves the bounds without sampling a wall and returns the point
`(0, 0)` with no error, and the hit distance `hd` computed by `Cast` is 175,
not zero. -/
theorem no_hit_distance_not_zero :
    ((NewRay realMath 105 140 0).horizontalArgs realMath).hit 4 (NewMap 11 15 64) =
      some (Except.ok none) ∧
    (NewRay realMath 105 140 0).findHorizontalIntersects realMath 4 (NewMap 11 15 64) =
      some (Except.ok (0, 0)) ∧
    ∃ hd vd, (NewRay realMath 105 140 0).hitDistances realMath 4 (NewMap 11 15 64) =
        some (Except.ok (hd, vd)) ∧ hd = 175 ∧ hd ≠ 0 := by
  obtain ⟨hH, _⟩ := builtin_hits realMath realMath_exact 0
  obtain ⟨vd, _, hD, _⟩ := builtin_cast realMath realMath_exact 0
  exact ⟨hH, ScanArgs.trace_of_hit _ _ _ _ hH, 175, vd, hD, rfl, by norm_num⟩

/-- The distances of `Cast` once the horizontal scan has returned. -/
theorem hitDistances_fst (M : GoMath K) (fuel : Nat) (r : Ray K) (m : Map) (hx hy : K)
    (d : K × K)
    (hH : r.findHorizontalIntersects M fuel m = some (Except.ok (hx, hy)))
    (hD : r.hitDistances M fuel m = some (Except.ok d)) :
    d.1 = M.Hypot (hx - r.originX) (hy - r.originY) := by
  simp only [Ray.hitDistances, hH] at hD
  split at hD
  · exact absurd hD (by simp)
  · exact absurd hD (by simp)
  · simp only [Option.some.injEq, Except.ok.injEq] at hD
    rw [← hD]

/-- The distances of `Cast` once the vertical scan has returned. -/
theorem hitDistances_snd (M : GoMath K) (fuel : Nat) (r : Ray K) (m : Map) (vx vy : K)
    (d : K × K)
    (hV : r.findVerticalIntersects M fuel m = some (Except.ok (vx, vy)))
    (hD : r.hitDistances M fuel m = some (Except.ok d)) :
    d.2 = M.Hypot (vx - r.originX) (vy - r.originY) := by
  unfold Ray.hitDistances at hD
  split at hD
  · exact absurd hD (by simp)
  · exact absurd hD (by simp)
  · simp only [hV] at hD
    simp only [Option.some.injEq, Except.ok.injEq] at hD
    rw [← hD]

/-- C5 amended: a scan whose loop leaves the screen bounds before any sample is
a wall or fails returns no error and the point `(0, 0)`; the hit distance that
`Cast` computes for it (`hd` for the horizontal scan, `vd` for the vertical one)
is `Hypot(0 - originX, 0 - originY)`, the distance from the origin to the point
`(0, 0)`, which is zero only when the origin is `(0, 0)`. -/
theorem no_hit_sentinel (M : GoMath K) (hM : M.Exact) (fuel : Nat) (r : Ray K) (m : Map) :
    ((r.horizontalArgs M).hit fuel m = some (Except.ok none) →
      r.findHorizontalIntersects M fuel m = some (Except.ok (0, 0)) ∧
      ∀ d, r.hitDistances M fuel m = some (Except.ok d) →
        d.1 = M.Hypot (0 - r.originX) (0 - r.originY)) ∧
    ((r.verticalArgs M).hit fuel m = some (Except.ok none) →
      r.findVerticalIntersects M fuel m = some (Except.ok (0, 0)) ∧
      ∀ d, r.hitDistances M fuel m = some (Except.ok d) →
        d.2 = M.Hypot (0 - r.originX) (0 - r.originY)) ∧
    (M.Hypot (0 - r.originX) (0 - r.originY) = 0 ↔ r.originX = 0 ∧ r.originY = 0) := by
  refine ⟨fun hH => ?_, fun hV => ?_, ?_⟩
  · have h1 : r.findHorizontalIntersects M fuel m = some (Except.ok (0, 0)) :=
      ScanArgs.trace_of_hit _ _ _ _ hH
    exact ⟨h1, fun d hD => hitDistances_fst M fuel r m 0 0 d h1 hD⟩
  · have h1 : r.findVerticalIntersects M fuel m = some (Except.ok (0, 0)) :=
      ScanArgs.trace_of_hit _ _ _ _ hV
    exact ⟨h1, fun d hD => hitDistances_snd M fuel r m 0 0 d h1 hD⟩
  · have h2 := hM.hypot_sq (0 - r.originX) (0 - r.originY)
    constructor
    · intro h0
      rw [h0] at h2
      have hx := sq_nonneg r.originX
      have hy := sq_nonneg r.originY
      have hx0 : r.originX ^ 2 = 0 := by nlinarith
      have hy0 : r.originY ^ 2 = 0 := by nlinarith
      exact ⟨pow_eq_zero_iff (by norm_num) |>.mp hx0, pow_eq_zero_iff (by norm_num) |>.mp hy0⟩
    · rintro ⟨hx, hy⟩
      rw [hx, hy] at h2 ⊢
      have : M.Hypot (0 - 0) (0 - 0) ^ 2 = 0 := by rw [h2]; norm_num
      exact pow_eq_zero_iff (by norm_num) |>.mp this

/-- Witness for C5 amended: the horizontal scan of the ray from (105, 140) at
angle 0 on the built-in map. -/
theorem no_hit_sentinel_witness :
    (NewRay realMath 105 140 0).findHorizontalIntersects realMath 4 (NewMap 11 15 64) =
      some (Except.ok (0, 0)) ∧
    ∀ d, (NewRay realMath 105 140 0).hitDistances realMath 4 (NewMap 11 15 64) =
        some (Except.ok d) →
      d.1 = realMath.Hypot (0 - (NewRay realMath 105 140 0).originX)
        (0 - (NewRay realMath 105 140 0).originY) :=
  (no_hit_sentinel realMath realMath_exact 4 (NewRay realMath 105 140 0) (NewMap 11 15 64)).1
    (builtin_hits realMath realMath_exact 0).1

/-! ## The ray fan -/

/-- A successful `Cast` changes only the distance and the flag `isHitVertical`. -/
theorem Cast_keeps (M : GoMath K) (fuel : Nat) (r r' : Ray K) (m : Map)
    (h : r.Cast M fuel m = some (Except.ok r')) :
    r'.angle = r.angle ∧ r'.originX = r.originX ∧ r'.originY = r.originY := by
  unfold Ray.Cast at h
  split at h
  · exact absurd h (by simp)
  · exact absurd h (by simp)
  · simp only [Option.some.injEq, Except.ok.injEq] at h
    rw [← h]
    exact ⟨rfl, rfl, rfl⟩

/-- Starting the angle sequence one step later shifts it by one index. -/
theorem rayAngleAt_shift (M : GoMath K) (a s : K) (j : Nat) :
    rayAngleAt M (M.Round (a + s)) s j = rayAngleAt M a s (j + 1) := by
  induction j with
  | zero => rfl
  | succ j ih =>
    show M.Round (rayAngleAt M (M.Round (a + s)) s j + s) = M.Round (rayAngleAt M a s (j + 1) + s)
    rw [ih]

/-- The loop of `CastRays`, when it ends without error, has appended exactly `n`
rays; the `j`-th of them has the angle `NormalizeAngle(a_j)`, where `a_j` is the
value of `rayAngle` after `j` rounded additions of the rounded step `F / N`,
and the origin `(x, y)`. -/
theorem castLoop_spec (M : GoMath K) (fuel : Nat) (F : K) (N : Int) (m : Map) (x y : K) :
    ∀ (n : Nat) (a : K) (rays rays' : List (Ray K)),
      castLoop M fuel F N m x y n a rays = some (rays', none) →
      ∃ suf : List (Ray K), rays' = rays ++ suf ∧ suf.length = n ∧
        ∀ (j : Nat) (r : Ray K), suf[j]? = some r →
          r.angle = NormalizeAngle M (rayAngleAt M a (M.Round (F / (N : K))) j) ∧
            r.originX = x ∧ r.originY = y := by
  intro n
  induction n with
  | zero =>
    intro a rays rays' h
    simp only [castLoop, Option.some.injEq, Prod.mk.injEq, and_true] at h
    exact ⟨[], by simp [h], rfl, fun j r hj => by simp at hj⟩
  | succ n ih =>
    intro a rays rays' h
    unfold castLoop at h
    split at h
    · exact absurd h (by simp)
    · exact absurd h (by simp)
    · rename_i ray hray
      obtain ⟨suf, hsuf, hlen, hall⟩ := ih _ _ _ h
      refine ⟨ray :: suf, by simp [hsuf], by simp [hlen], ?_⟩
      intro j r hj
      cases j with
      | zero =>
        simp only [List.getElem?_cons_zero, Option.some.injEq] at hj
        subst hj
        obtain ⟨h1, h2, h3⟩ := Cast_keeps M fuel _ _ m hray
        refine ⟨?_, by rw [h2]; rfl, by rw [h3]; rfl⟩
        rw [h1]
        rfl
      | succ j =>
        simp only [List.getElem?_cons_succ] at hj
        obtain ⟨h1, h2, h3⟩ := hall j r hj
        refine ⟨?_, h2, h3⟩
        rw [h1, rayAngleAt_shift]

/-- C9, what the code does: after a successful `CastRays(F, N, m)` the fan has
`NumRays` = 240 rays, whatever `N` is. -/
theorem CastRays_length (M : GoMath K) (fuel : Nat) (F : K) (N : Int) (m : Map)
    (p p' : Player K) (h : p.CastRays M fuel F N m = some (p', none)) :
    p'.rays.length = NumRays ∧ NumRays = 240 := by
  unfold Player.CastRays at h
  split at h
  · exact absurd h (by simp)
  · rename_i rays err hloop
    simp only [Option.some.injEq, Prod.mk.injEq] at h
    obtain ⟨hp, herr⟩ := h
    subst herr
    obtain ⟨suf, hsuf, hlen, _⟩ := castLoop_spec M fuel F N m p.x p.y _ _ _ _ hloop
    simp only [List.nil_append] at hsuf
    subst hsuf
    refine ⟨?_, by decide⟩
    rw [← hp]
    exact hlen

/-- When the rounded step does not move the angle, every iteration of the loop
casts the same ray, so the loop succeeds as soon as that cast does. -/
theorem castLoop_zero_fov (M : GoMath K) (fuel : Nat) (F : K) (N : Int) (m : Map) (x y a : K)
    (hstep : M.Round (a + M.Round (F / (N : K))) = a)
    (r : Ray K) (hr : (NewRay M x y a).Cast M fuel m = some (Except.ok r)) :
    ∀ (n : Nat) (rays : List (Ray K)),
      castLoop M fuel F N m x y n a rays = some (rays ++ List.replicate n r, none) := by
  intro n
  induction n with
  | zero => intro rays; simp [castLoop]
  | succ n ih =>
    intro rays
    unfold castLoop
    simp only [hr, hstep]
    rw [ih]
    simp [List.replicate_succ]

/-- On the built-in map the player at (105, 140) with orientation 0 casts a fan
of field of view 0 without error, for every `numRays`, when no operation
rounds. -/
theorem CastRays_zero_fov_builtin (M : GoMath K) (hM : M.Exact)
    (hR : ∀ x : K, M.Round x = x) (N : Int) :
    ∃ p', (playerAt M 105 140 0 0).CastRays M 4 0 N (NewMap 11 15 64) = some (p', none) := by
  obtain ⟨_, r, _, _, _, hC, _⟩ := builtin_cast M hM 0
  have h0 : M.Round ((playerAt M 105 140 0 0).rotationAngle - M.Round ((0 : K) / 2)) = 0 := by
    simp [playerAt, hR]
  have hloop := castLoop_zero_fov M 4 0 N (NewMap 11 15 64) 105 140 0 (by simp [hR]) r hC
    NumRays []
  refine ⟨{ playerAt M 105 140 0 0 with rays := [] ++ List.replicate NumRays r }, ?_⟩
  unfold Player.CastRays
  rw [h0]
  have hx : (playerAt M 105 140 0 0).x = 105 := rfl
  have hy : (playerAt M 105 140 0 0).y = 140 := rfl
  rw [hx, hy, hloop]
  rfl

/-- Witness for C9: with `numRays = 1` (and field of view 0) the fan cast on the
built-in map from (105, 140) at orientation 0 has 240 rays, not 1. -/
theorem CastRays_length_witness :
    ∃ p', (playerAt realMath 105 140 0 0).CastRays realMath 4 0 1 (NewMap 11 15 64) =
        some (p', none) ∧ p'.rays.length = NumRays ∧ NumRays = 240 := by
  obtain ⟨p', h⟩ := CastRays_zero_fov_builtin realMath realMath_exact (fun _ => rfl) 1
  exact ⟨p', h, CastRays_length realMath 4 0 1 (NewMap 11 15 64) _ p' h⟩

/-! ## Player movement and orientation -/

/-- Truncated division by a positive tile size sends a pixel of `[0, c*t)` to a
tile number of `[0, c)`. -/
theorem tdiv_lt_of_lt_mul (x c t : Int) (hx : 0 ≤ x) (ht : 0 < t) (h : x < c * t) :
    0 ≤ Int.tdiv x t ∧ Int.tdiv x t < c := by
  rw [Int.tdiv_eq_ediv hx ht.le]
  exact ⟨Int.ediv_nonneg hx ht.le, (Int.ediv_lt_iff_lt_mul ht).mpr h⟩

/-- Inside the pixel bounds of a map whose grid has `Rows * Columns` tiles the
index computed by `AtPixel` is inside the grid. -/
theorem index_in_range (m : Map) (x y : Int) (hT : 0 < m.TileSize)
    (hlen : (m.Grid.length : Int) = m.Rows * m.Columns)
    (hx : 0 ≤ x ∧ x < m.Columns * m.TileSize) (hy : 0 ≤ y ∧ y < m.Rows * m.TileSize) :
    0 ≤ Int.tdiv y m.TileSize * m.Columns + Int.tdiv x m.TileSize ∧
      Int.tdiv y m.TileSize * m.Columns + Int.tdiv x m.TileSize < (m.Grid.length : Int) := by
  obtain ⟨hgx0, hgx⟩ := tdiv_lt_of_lt_mul x m.Columns m.TileSize hx.1 hT hx.2
  obtain ⟨hgy0, hgy⟩ := tdiv_lt_of_lt_mul y m.Rows m.TileSize hy.1 hT hy.2
  have hC : 0 ≤ m.Columns := by omega
  constructor
  · exact add_nonneg (mul_nonneg hgy0 hC) hgx0
  · rw [hlen]
    have h1 : (Int.tdiv y m.TileSize + 1) * m.Columns ≤ m.Rows * m.Columns :=
      mul_le_mul_of_nonneg_right (by omega) hC
    have h2 : (Int.tdiv y m.TileSize + 1) * m.Columns =
        Int.tdiv y m.TileSize * m.Columns + m.Columns := by ring
    omega

/-- Inside the pixel bounds of a map whose grid has `Rows * Columns` tiles
`AtPixel` returns a tile: no error and no panic. -/
theorem AtPixel_ok_of_inBounds (m : Map) (x y : Int) (hT : 0 < m.TileSize)
    (hlen : (m.Grid.length : Int) = m.Rows * m.Columns)
    (hx : 0 ≤ x ∧ x < m.Columns * m.TileSize) (hy : 0 ≤ y ∧ y < m.Rows * m.TileSize) :
    ∃ tile, m.AtPixel x y = Except.ok tile := by
  obtain ⟨hi0, hi⟩ := index_in_range m x y hT hlen hx hy
  have hlt : (Int.tdiv y m.TileSize * m.Columns + Int.tdiv x m.TileSize).toNat <
      m.Grid.length := by
    have : ((Int.tdiv y m.TileSize * m.Columns + Int.tdiv x m.TileSize).toNat : Int) <
        (m.Grid.length : Int) := by
      rw [Int.toNat_of_nonneg hi0]; exact hi
    exact_mod_cast this
  have hguard : ¬ (x < 0 ∨ y < 0 ∨ x ≥ m.Columns * m.TileSize ∨
      y ≥ m.Rows * m.TileSize) := by omega
  have hT0 : m.TileSize ≠ 0 := ne_of_gt hT
  have hneg : ¬ (Int.tdiv y m.TileSize * m.Columns + Int.tdiv x m.TileSize < 0) := by omega
  exact ⟨m.Grid[(Int.tdiv y m.TileSize * m.Columns + Int.tdiv x m.TileSize).toNat], by
    simp only [Map.AtPixel, hguard, hT0, if_false, hneg, List.getElem?_eq_getElem hlt]⟩

/-- C20: on a map with positive dimensions and `len(Grid) = Rows * Columns`,
every pixel that passes the bounds check of `AtPixel` gives an index
`(y / TileSize) * Columns + x / TileSize` with `0 ≤ idx < len(Grid)`, and the
call returns a tile (the slice access does not panic). -/
theorem AtPixel_index_in_range (m : Map) (x y : Int)
    (_hR : 0 < m.Rows) (_hC : 0 < m.Columns) (hT : 0 < m.TileSize)
    (hlen : (m.Grid.length : Int) = m.Rows * m.Columns)
    (hpass : ¬ (x < 0 ∨ y < 0 ∨ x ≥ m.Columns * m.TileSize ∨ y ≥ m.Rows * m.TileSize)) :
    0 ≤ Int.tdiv y m.TileSize * m.Columns + Int.tdiv x m.TileSize ∧
      Int.tdiv y m.TileSize * m.Columns + Int.tdiv x m.TileSize < (m.Grid.length : Int) ∧
      ∃ tile, m.AtPixel x y = Except.ok tile := by
  have hx : 0 ≤ x ∧ x < m.Columns * m.TileSize := by omega
  have hy : 0 ≤ y ∧ y < m.Rows * m.TileSize := by omega
  obtain ⟨h0, h1⟩ := index_in_range m x y hT hlen hx hy
  exact ⟨h0, h1, AtPixel_ok_of_inBounds m x y hT hlen hx hy⟩

/-- Witness for C20: the last pixel (959, 703) of the built-in map. -/
theorem AtPixel_index_in_range_witness :
    0 ≤ Int.tdiv 703 (NewMap 11 15 64).TileSize * (NewMap 11 15 64).Columns +
        Int.tdiv 959 (NewMap 11 15 64).TileSize ∧
      Int.tdiv 703 (NewMap 11 15 64).TileSize * (NewMap 11 15 64).Columns +
        Int.tdiv 959 (NewMap 11 15 64).TileSize < ((NewMap 11 15 64).Grid.length : Int) ∧
      ∃ tile, (NewMap 11 15 64).AtPixel 959 703 = Except.ok tile :=
  AtPixel_index_in_range (NewMap 11 15 64) 959 703 (by decide) (by decide) (by decide)
    (by rfl) (by decide)

/-- C15 fails: the map of `NewMap(1, 1, 64)` has 165 tiles, not `1 * 1`. -/
theorem NewMap_length_mismatch :
    ((NewMap 1 1 64).Grid.length : Int) ≠ (NewMap 1 1 64).Rows * (NewMap 1 1 64).Columns := by
  decide

/-- C15 amended: the grid of `NewMap(rows, columns, tileSize)` is the fixed
literal of 165 tiles, so `len(Grid) = Rows * Columns` holds exactly when
`rows * columns = 165`; it holds for `NewMap(MapRows, MapColumns, TileSize)`. -/
theorem NewMap_length (rows columns tileSize : Int) :
    (NewMap rows columns tileSize).Grid.length = 165 ∧
    (((NewMap rows columns tileSize).Grid.length : Int) =
        (NewMap rows columns tileSize).Rows * (NewMap rows columns tileSize).Columns ↔
      rows * columns = 165) ∧
    ((NewMap MapRows MapColumns TileSize).Grid.length : Int) =
      (NewMap MapRows MapColumns TileSize).Rows * (NewMap MapRows MapColumns TileSize).Columns := by
  have hlen : (NewMap rows columns tileSize).Grid.length = 165 := rfl
  refine ⟨hlen, ?_, by rfl⟩
  rw [hlen]
  simp only [NewMap]
  constructor
  · intro h; exact h.symm
  · intro h; exact h.symm

/-! ## `AtPixel` on 64-bit integers -/

/-- A value inside the range of a 64-bit `int` is not changed by wrapping. -/
theorem wrap64_of_fits (z : Int) (h0 : -2 ^ 63 ≤ z) (h1 : z < 2 ^ 63) : wrap64 z = z := by
  unfold wrap64
  omega

/-- On a map whose pixel extents `Columns * TileSize` and `Rows * TileSize` fit
in an `int`, and whose grid has `Rows * Columns` entries (fewer than `2^63`, as
every slice has), the wrapping arithmetic of `AtPixel` never wraps. -/
theorem AtPixel64_eq_AtPixel (m : Map) (x y : Int) (hT : 0 < m.TileSize)
    (hCT : -2 ^ 63 ≤ m.Columns * m.TileSize ∧ m.Columns * m.TileSize < 2 ^ 63)
    (hRT : -2 ^ 63 ≤ m.Rows * m.TileSize ∧ m.Rows * m.TileSize < 2 ^ 63)
    (hlen : (m.Grid.length : Int) = m.Rows * m.Columns)
    (hlen64 : (m.Grid.length : Int) < 2 ^ 63) :
    m.AtPixel64 x y = m.AtPixel x y := by
  unfold Map.AtPixel64 Map.AtPixel
  rw [wrap64_of_fits _ hCT.1 hCT.2, wrap64_of_fits _ hRT.1 hRT.2]
  by_cases hg : x < 0 ∨ y < 0 ∨ x ≥ m.Columns * m.TileSize ∨ y ≥ m.Rows * m.TileSize
  · rw [if_pos hg, if_pos hg]
  · rw [if_neg hg, if_neg hg]
    have hx0 : 0 ≤ x := by omega
    have hy0 : 0 ≤ y := by omega
    have hgx0 : 0 ≤ Int.tdiv x m.TileSize := Int.tdiv_nonneg hx0 hT.le
    have hgy0 : 0 ≤ Int.tdiv y m.TileSize := Int.tdiv_nonneg hy0 hT.le
    have hgx : Int.tdiv x m.TileSize < m.Columns :=
      (tdiv_lt_of_lt_mul x m.Columns m.TileSize hx0 hT (by omega)).2
    have hgy : Int.tdiv y m.TileSize < m.Rows :=
      (tdiv_lt_of_lt_mul y m.Rows m.TileSize hy0 hT (by omega)).2
    have hC0 : 0 < m.Columns := by omega
    have h1 : 0 ≤ Int.tdiv y m.TileSize * m.Columns := mul_nonneg hgy0 hC0.le
    have h2 : (Int.tdiv y m.TileSize + 1) * m.Columns ≤ m.Rows * m.Columns :=
      mul_le_mul_of_nonneg_right (by omega) hC0.le
    have h3 : (Int.tdiv y m.TileSize + 1) * m.Columns =
        Int.tdiv y m.TileSize * m.Columns + m.Columns := by ring
    have hw1 : wrap64 (Int.tdiv y m.TileSize * m.Columns) =
        Int.tdiv y m.TileSize * m.Columns := wrap64_of_fits _ (by omega) (by omega)
    have hw2 : wrap64 (Int.tdiv y m.TileSize * m.Columns + Int.tdiv x m.TileSize) =
        Int.tdiv y m.TileSize * m.Columns + Int.tdiv x m.TileSize :=
      wrap64_of_fits _ (by omega) (by omega)
    simp only [hw1, hw2]

/-- C1 refuted on 64-bit integers: the map of one row and two columns with
tiles `2^62` wide is well formed (positive dimensions, two grid entries), the
pixel (0, 0) lies in the footprint of its tile (0, 0), whose stored value is
`Grid[0] = 0`, and `AtPixel(0, 0)` returns the out-of-range error, because the
bound `Columns * TileSize = 2^63` wraps to `-2^63`. -/
theorem AtPixel64_footprint_overflow :
    0 < wideMap.Rows ∧ 0 < wideMap.Columns ∧ 0 < wideMap.TileSize ∧
      (wideMap.Grid.length : Int) = wideMap.Rows * wideMap.Columns ∧
      ((0 : Int) ≤ 0 ∧ (0 : Int) < wideMap.Columns) ∧ ((0 : Int) ≤ 0 ∧ (0 : Int) < wideMap.Rows) ∧
      ((0 : Int) * wideMap.TileSize ≤ 0 ∧ (0 : Int) < (0 + 1) * wideMap.TileSize) ∧
      ((0 : Int) * wideMap.TileSize ≤ 0 ∧ (0 : Int) < (0 + 1) * wideMap.TileSize) ∧
      wideMap.Grid[((0 : Int) * wideMap.Columns + 0).toNat]? = some 0 ∧
      wideMap.AtPixel64 0 0 = Except.error (Failure.outOfRange 0 0) ∧
      wrap64 (wideMap.Columns * wideMap.TileSize) = -2 ^ 63 :=
  ⟨by decide, by decide, by decide, by decide, by decide, by decide, by decide, by decide,
    by rfl, by rfl, by decide⟩

/-- C1 amended: on a well-formed map (positive dimensions, grid length
`Rows * Columns`) whose pixel extents `Columns * TileSize` and
`Rows * TileSize` fit in a 64-bit `int`, every pixel inside the footprint of an
in-bounds tile `(col, row)` is answered by `AtPixel` with the stored tile
`Grid[row * Columns + col]` and no error. -/
theorem AtPixel64_footprint (m : Map) (col row x y : Int)
    (hR : 0 < m.Rows) (hC : 0 < m.Columns) (hT : 0 < m.TileSize)
    (hlen : (m.Grid.length : Int) = m.Rows * m.Columns)
    (hlen64 : (m.Grid.length : Int) < 2 ^ 63)
    (hCT : m.Columns * m.TileSize < 2 ^ 63) (hRT : m.Rows * m.TileSize < 2 ^ 63)
    (hcol : 0 ≤ col ∧ col < m.Columns) (hrow : 0 ≤ row ∧ row < m.Rows)
    (hx : col * m.TileSize ≤ x ∧ x < (col + 1) * m.TileSize)
    (hy : row * m.TileSize ≤ y ∧ y < (row + 1) * m.TileSize) :
    ∃ tile, m.Grid[(row * m.Columns + col).toNat]? = some tile ∧
      m.AtPixel64 x y = Except.ok tile := by
  have hCT0 : 0 ≤ m.Columns * m.TileSize := mul_nonneg hC.le hT.le
  have hRT0 : 0 ≤ m.Rows * m.TileSize := mul_nonneg hR.le hT.le
  rw [AtPixel64_eq_AtPixel m x y hT ⟨by omega, hCT⟩ ⟨by omega, hRT⟩ hlen hlen64]
  exact AtPixel_footprint m col row x y hR hC hT hlen hcol hrow hx hy

/-- Witness for C1 amended: the pixel (70, 130) of the built-in map lies in tile
(col 1, row 2), an empty tile. -/
theorem AtPixel64_footprint_witness :
    ∃ tile, (NewMap 11 15 64).Grid[((2 : Int) * (NewMap 11 15 64).Columns + 1).toNat]?
        = some tile ∧ (NewMap 11 15 64).AtPixel64 70 130 = Except.ok tile :=
  AtPixel64_footprint (NewMap 11 15 64) 1 2 70 130 (by decide) (by decide) (by decide)
    (by rfl) (by decide) (by decide) (by decide) (by decide) (by decide) (by decide) (by decide)

/-- The 64-bit `AtPixel` returns an error exactly when the pixel lies outside
the rectangle whose bounds are the wrapped products the code compares with. -/
theorem AtPixel64_error_iff_wrapped (m : Map) (x y : Int) :
    returnsError (m.AtPixel64 x y) ↔
      ¬ (0 ≤ x ∧ x < wrap64 (m.Columns * m.TileSize) ∧ 0 ≤ y ∧
        y < wrap64 (m.Rows * m.TileSize)) := by
  by_cases hg : x < 0 ∨ y < 0 ∨ x ≥ wrap64 (m.Columns * m.TileSize) ∨
      y ≥ wrap64 (m.Rows * m.TileSize)
  · have hout : ¬ (0 ≤ x ∧ x < wrap64 (m.Columns * m.TileSize) ∧ 0 ≤ y ∧
        y < wrap64 (m.Rows * m.TileSize)) := by omega
    simp only [Map.AtPixel64, hg, if_true, returnsError, Failure.isError, hout,
      not_false_eq_true]
  · have hin : 0 ≤ x ∧ x < wrap64 (m.Columns * m.TileSize) ∧ 0 ≤ y ∧
        y < wrap64 (m.Rows * m.TileSize) := by omega
    have hno : ¬ returnsError (m.AtPixel64 x y) := by
      unfold Map.AtPixel64
      rw [if_neg hg]
      by_cases hT : m.TileSize = 0
      · simp [hT, returnsError, Failure.isError]
      · rw [if_neg hT]
        dsimp only
        split_ifs
        · simp [returnsError, Failure.isError]
        · split <;> simp [returnsError, Failure.isError]
    simp only [hno, hin, and_self, not_true_eq_false]

/-- C2 refuted on 64-bit integers: on the map of one row and two columns with
tiles `2^62` wide the pixel (0, 0) lies inside
`[0, Columns*TileSize) × [0, Rows*TileSize)` and `AtPixel(0, 0)` returns an
error. -/
theorem AtPixel64_error_inside :
    ((0 : Int) ≤ 0 ∧ (0 : Int) < wideMap.Columns * wideMap.TileSize ∧ (0 : Int) ≤ 0 ∧
      (0 : Int) < wideMap.Rows * wideMap.TileSize) ∧
    returnsError (wideMap.AtPixel64 0 0) := by
  refine ⟨by decide, ?_⟩
  have h : wideMap.AtPixel64 0 0 = Except.error (Failure.outOfRange 0 0) := by rfl
  rw [h]
  rfl

/-- C2 amended: on every map whose pixel extents `Columns * TileSize` and
`Rows * TileSize` fit in a 64-bit `int`, `AtPixel(x, y)` returns an error
exactly when `(x, y)` lies outside
`[0, Columns*TileSize) × [0, Rows*TileSize)`; in particular `AtPixel(-1, 0)` and
`AtPixel(Columns*TileSize, 0)` return an error. -/
theorem AtPixel64_error_iff (m : Map) (x y : Int)
    (hCT : -2 ^ 63 ≤ m.Columns * m.TileSize ∧ m.Columns * m.TileSize < 2 ^ 63)
    (hRT : -2 ^ 63 ≤ m.Rows * m.TileSize ∧ m.Rows * m.TileSize < 2 ^ 63) :
    (returnsError (m.AtPixel64 x y) ↔
      ¬ (0 ≤ x ∧ x < m.Columns * m.TileSize ∧ 0 ≤ y ∧ y < m.Rows * m.TileSize)) ∧
    returnsError (m.AtPixel64 (-1) 0) ∧
    returnsError (m.AtPixel64 (m.Columns * m.TileSize) 0) := by
  have h := fun a b => AtPixel64_error_iff_wrapped m a b
  rw [wrap64_of_fits _ hCT.1 hCT.2, wrap64_of_fits _ hRT.1 hRT.2] at h
  refine ⟨h x y, (h (-1) 0).mpr (by omega), (h _ 0).mpr (by omega)⟩

/-- Witness for C2 amended: the built-in map, whose extents are 960 and 704, at
the pixel (960, 0). -/
theorem AtPixel64_error_iff_witness :
    (returnsError ((NewMap 11 15 64).AtPixel64 960 0) ↔
      ¬ ((0 : Int) ≤ 960 ∧ (960 : Int) < (NewMap 11 15 64).Columns * (NewMap 11 15 64).TileSize ∧
        (0 : Int) ≤ 0 ∧ (0 : Int) < (NewMap 11 15 64).Rows * (NewMap 11 15 64).TileSize)) ∧
    returnsError ((NewMap 11 15 64).AtPixel64 (-1) 0) ∧
    returnsError ((NewMap 11 15 64).AtPixel64
      ((NewMap 11 15 64).Columns * (NewMap 11 15 64).TileSize) 0) :=
  AtPixel64_error_iff (NewMap 11 15 64) 960 0 (by decide) (by decide)

/-! ## Projection -/

/-- C12: with the fixed screen geometry, doubling the corrected distance halves
the wall strip height: `height(2 * d) = height(d) / 2` for every `d > 0`. -/
theorem wallStripHeight_double (M : GoMath K) (d : K) (hd : 0 < d) :
    wallStripHeight M (2 * d) = wallStripHeight M d / 2 := by
  have hd0 : d ≠ 0 := ne_of_gt hd
  unfold wallStripHeight
  field_simp
  left
  ring

/-- Witness for C12: the corrected distance 100 under the real-number `math`. -/
theorem wallStripHeight_double_witness :
    wallStripHeight realMath (2 * 100) = wallStripHeight realMath 100 / 2 :=
  wallStripHeight_double realMath 100 (by norm_num)

/-- The ray of a normalised angle in `(0, π/2)` faces down and right. -/
theorem NewRay_down_right (M : GoMath K) (x y a : K)
    (hn : NormalizeAngle M a = a) (h0 : 0 < a) (h1 : a < 1 / 2 * M.Pi) :
    NewRay M x y a =
      { originX := x, originY := y, angle := a, distance := 0,
        isRayFacingDown := true, isRayFacingUp := false,
        isRayFacingRight := true, isRayFacingLeft := false, isHitVertical := false } := by
  have h2 : a < M.Pi := by linarith
  have h3 : a < 2⁻¹ * M.Pi := by
    have : (2 : K)⁻¹ = 1 / 2 := by norm_num
    rw [this]
    exact h1
  simp [NewRay, hn, h0, h2]
  exact ⟨Or.inl h3, fun h => absurd h (not_le.mpr h3)⟩

/-- The angle `π/4` is its own normal form under the real-number `math`. -/
theorem NormalizeAngle_pi_div_four :
    NormalizeAngle realMath (Real.pi / 4) = Real.pi / 4 := by
  have hpi := Real.pi_pos
  have hq : Real.pi / 4 / (2 * Real.pi) = 1 / 8 := by
    field_simp
    ring
  have hpos : ¬ (Real.pi / 4 < 0) := by
    push_neg
    positivity
  have hfl : toInt ((1 : ℝ) / 8) = 0 := by norm_num [toInt]
  simp only [NormalizeAngle, mathMod, realMath, hq, hfl]
  simp [hpos]

/-- The scans of a ray from (96, 96) with slope 1 (down and right) on the
built-in map: both stop on the wall tile (column 3, row 3) at its corner
(192, 192). -/
theorem builtin_diagonal_hits (M : GoMath K) (a : K)
    (hn : NormalizeAngle M a = a) (h0 : 0 < a) (h1 : a < 1 / 2 * M.Pi)
    (htan : M.Tan a = 1) (fuel : Nat) :
    ((NewRay M 96 96 a).horizontalArgs M).hit (fuel + 2) (NewMap 11 15 64) =
      some (Except.ok (some (192, 192))) ∧
    ((NewRay M 96 96 a).verticalArgs M).hit (fuel + 2) (NewMap 11 15 64) =
      some (Except.ok (some (192, 192))) := by
  constructor
  · have hargs : (NewRay M 96 96 a).horizontalArgs M =
        { startX := 128, startY := 128, stepX := 64, stepY := 64,
          offsetX := 0, offsetY := 0 } := by
      rw [NewRay_down_right M 96 96 a hn h0 h1]
      simp [Ray.horizontalArgs, htan, mathFloor, TileSize]
      norm_num
    rw [hargs]
    simp only [ScanArgs.hit]
    rw [traceHit_empty _ _ _ _ _ _ _ _ 0
      (by norm_num [ScreenWidth, ScreenHeight, TileSize, MapColumns, MapRows])
      (by rw [sampleAt_eval (NewMap 11 15 64) _ _ 128 128 (by norm_num [toInt])
            (by norm_num [toInt])]; rfl)
      (by decide)]
    rw [traceHit_wall _ _ _ _ _ _ _ _
      (by norm_num [ScreenWidth, ScreenHeight, TileSize, MapColumns, MapRows])
      (by rw [sampleAt_eval (NewMap 11 15 64) _ _ 192 192 (by norm_num [toInt])
            (by norm_num [toInt])]; rfl)]
    norm_num
  · have hargs : (NewRay M 96 96 a).verticalArgs M =
        { startX := 128, startY := 128, stepX := 64, stepY := 64,
          offsetX := 0, offsetY := 0 } := by
      rw [NewRay_down_right M 96 96 a hn h0 h1]
      simp [Ray.verticalArgs, htan, mathFloor, TileSize]
      norm_num
    rw [hargs]
    simp only [ScanArgs.hit]
    rw [traceHit_empty _ _ _ _ _ _ _ _ 0
      (by norm_num [ScreenWidth, ScreenHeight, TileSize, MapColumns, MapRows])
      (by rw [sampleAt_eval (NewMap 11 15 64) _ _ 128 128 (by norm_num [toInt])
            (by norm_num [toInt])]; rfl)
      (by decide)]
    rw [traceHit_wall _ _ _ _ _ _ _ _
      (by norm_num [ScreenWidth, ScreenHeight, TileSize, MapColumns, MapRows])
      (by rw [sampleAt_eval (NewMap 11 15 64) _ _ 192 192 (by norm_num [toInt])
            (by norm_num [toInt])]; rfl)]
    norm_num

/-- C17 fails: on the built-in map the ray from (96, 96) at angle π/4 meets the
wall corner (192, 192) in both scans, so `hd = vd` (they differ by less than
1e-4), and `Cast` sets `isHitVertical` to false. -/
theorem Cast_tie_not_vertical :
    ∃ hd vd r,
      (NewRay realMath 96 96 (Real.pi / 4)).hitDistances realMath 2 (NewMap 11 15 64) =
        some (Except.ok (hd, vd)) ∧
      |vd - hd| < 1 / 10000 ∧
      (NewRay realMath 96 96 (Real.pi / 4)).Cast realMath 2 (NewMap 11 15 64) =
        some (Except.ok r) ∧
      r.isHitVertical = false := by
  have hlt : Real.pi / 4 < 1 / 2 * Real.pi := by
    have := Real.pi_pos
    linarith
  obtain ⟨hH, hV⟩ := builtin_diagonal_hits realMath (Real.pi / 4)
    NormalizeAngle_pi_div_four (by have := Real.pi_pos; positivity) hlt
    Real.tan_pi_div_four 0
  have hD := hitDistances_of_hits realMath (0 + 2) _ (NewMap 11 15 64) _ _ hH hV
  refine ⟨_, _, _, hD, ?_, Cast_of_hitDistances realMath _ _ _ _ _ hD, ?_⟩
  · simp
  · simp

/-- C17 amended: `Cast` sets `isHitVertical` to the comparison `vd < hd` whether
or not the two distances differ by less than 1e-4 (both branches of the test
assign the same value); within the tolerance the vertical hit wins exactly when
`vd < hd`, and an exact tie gives `isHitVertical = false`. -/
theorem Cast_isHitVertical (M : GoMath K) (fuel : Nat) (r r' : Ray K) (m : Map)
    (h : r.Cast M fuel m = some (Except.ok r')) :
    ∃ hd vd, r.hitDistances M fuel m = some (Except.ok (hd, vd)) ∧
      r'.isHitVertical = decide (vd < hd) ∧
      (|vd - hd| < 1 / 10000 → (r'.isHitVertical = true ↔ vd < hd)) ∧
      (vd = hd → r'.isHitVertical = false) := by
  unfold Ray.Cast at h
  split at h
  · exact absurd h (by simp)
  · exact absurd h (by simp)
  · rename_i hd vd hD
    simp only [ite_self, Option.some.injEq, Except.ok.injEq] at h
    refine ⟨hd, vd, hD, by rw [← h], fun _ => by rw [← h]; simp, fun he => by rw [← h]; simp [he]⟩

/-- Witness for C17 amended: the ray from (96, 96) at angle π/4 on the built-in
map. -/
theorem Cast_isHitVertical_witness :
    ∃ r', (NewRay realMath 96 96 (Real.pi / 4)).Cast realMath 2 (NewMap 11 15 64) =
        some (Except.ok r') ∧
      ∃ hd vd,
        (NewRay realMath 96 96 (Real.pi / 4)).hitDistances realMath 2 (NewMap 11 15 64) =
          some (Except.ok (hd, vd)) ∧
        r'.isHitVertical = decide (vd < hd) := by
  have hlt : Real.pi / 4 < 1 / 2 * Real.pi := by
    have := Real.pi_pos
    linarith
  obtain ⟨hH, hV⟩ := builtin_diagonal_hits realMath (Real.pi / 4)
    NormalizeAngle_pi_div_four (by have := Real.pi_pos; positivity) hlt
    Real.tan_pi_div_four 0
  have hD := hitDistances_of_hits realMath (0 + 2) _ (NewMap 11 15 64) _ _ hH hV
  have hC := Cast_of_hitDistances realMath _ _ _ _ _ hD
  obtain ⟨hd, vd, h1, h2, _⟩ := Cast_isHitVertical realMath _ _ _ _ hC
  exact ⟨_, hC, hd, vd, h1, h2⟩

/-! ## The stepping loop under an invariant -/

/-- The screen is 960 pixels wide. -/
theorem ScreenWidth_cast : ((ScreenWidth : Int) : K) = 960 := by
  norm_num [ScreenWidth, TileSize, MapColumns]

/-- The screen is 704 pixels high. -/
theorem ScreenHeight_cast : ((ScreenHeight : Int) : K) = 704 := by
  norm_num [ScreenHeight, TileSize, MapRows]

/-- Inside the screen, a failing sample stops the loop with its error. -/
theorem traceHit_error (stepX stepY offsetX offsetY : K)
    (sampleTile : K → K → Except Failure Int) (fuel : Nat) (x y : K) (e : Failure)
    (hg : x ≥ 0 ∧ x < (ScreenWidth : K) ∧ y ≥ 0 ∧ y < (ScreenHeight : K))
    (hs : sampleTile (x + offsetX) (y + offsetY) = Except.error e) :
    traceHit stepX stepY offsetX offsetY sampleTile (fuel + 1) x y =
      some (Except.error e) := by
  unfold traceHit
  rw [if_pos hg]
  simp only [hs]

/-- Inside the screen, the loop cannot run its body without fuel. -/
theorem traceHit_no_fuel (stepX stepY offsetX offsetY : K)
    (sampleTile : K → K → Except Failure Int) (x y : K)
    (hg : x ≥ 0 ∧ x < (ScreenWidth : K) ∧ y ≥ 0 ∧ y < (ScreenHeight : K)) :
    traceHit stepX stepY offsetX offsetY sampleTile 0 x y = none := by
  unfold traceHit
  rw [if_pos hg]

/-- The loop returns within `fuel` executions of its body when a measure `μ` of
the current point, at most `fuel` at the start, drops with every step taken
under an invariant `I`. -/
theorem traceHit_total (stepX stepY offsetX offsetY : K)
    (sampleTile : K → K → Except Failure Int) (I : K → K → Prop) (μ : K → K → Nat)
    (hμ : ∀ x y, I x y → inScreen x y → 1 ≤ μ x y)
    (hstep : ∀ x y t, I x y → inScreen x y →
      sampleTile (x + offsetX) (y + offsetY) = Except.ok t → t ≠ TileWall →
      I (x + stepX) (y + stepY) ∧
        (inScreen (x + stepX) (y + stepY) → μ (x + stepX) (y + stepY) + 1 ≤ μ x y)) :
    ∀ (fuel : Nat) (x y : K), I x y → (inScreen x y → μ x y ≤ fuel) →
      ∃ res, traceHit stepX stepY offsetX offsetY sampleTile fuel x y = some res := by
  intro fuel
  induction fuel with
  | zero =>
    intro x y hI hfuel
    by_cases hg : inScreen x y
    · have h1 := hμ x y hI hg
      have h2 := hfuel hg
      omega
    · exact ⟨_, traceHit_out _ _ _ _ _ _ _ _ hg⟩
  | succ n ih =>
    intro x y hI hfuel
    by_cases hg : inScreen x y
    · cases hs : sampleTile (x + offsetX) (y + offsetY) with
      | error e =>
        exact ⟨Except.error e, traceHit_error _ _ _ _ _ _ _ _ e hg hs⟩
      | ok t =>
        by_cases ht : t = TileWall
        · subst ht
          exact ⟨_, traceHit_wall _ _ _ _ _ _ _ _ hg hs⟩
        · rw [traceHit_empty _ _ _ _ _ _ _ _ t hg hs ht]
          obtain ⟨hI', hdec⟩ := hstep x y t hI hg hs ht
          refine ih _ _ hI' (fun hg' => ?_)
          have h1 := hdec hg'
          have h2 := hfuel hg
          omega
    · exact ⟨_, traceHit_out _ _ _ _ _ _ _ _ hg⟩

/-- Whatever the loop returns comes from a point inside the screen that
satisfies the invariant `I`: an error is the error of the sample taken there, a
hit is a point whose sample is a wall. -/
theorem traceHit_provenance (stepX stepY offsetX offsetY : K)
    (sampleTile : K → K → Except Failure Int) (I : K → K → Prop)
    (hstep : ∀ x y t, I x y → inScreen x y →
      sampleTile (x + offsetX) (y + offsetY) = Except.ok t → t ≠ TileWall →
      I (x + stepX) (y + stepY)) :
    ∀ (fuel : Nat) (x y : K) (res : Except Failure (Option (K × K))), I x y →
      traceHit stepX stepY offsetX offsetY sampleTile fuel x y = some res →
      (∀ e, res = Except.error e → ∃ x' y', I x' y' ∧ inScreen x' y' ∧
        sampleTile (x' + offsetX) (y' + offsetY) = Except.error e) ∧
      (∀ p, res = Except.ok (some p) → I p.1 p.2 ∧ inScreen p.1 p.2 ∧
        sampleTile (p.1 + offsetX) (p.2 + offsetY) = Except.ok TileWall) := by
  intro fuel
  induction fuel with
  | zero =>
    intro x y res _ h
    by_cases hg : inScreen x y
    · rw [traceHit_no_fuel _ _ _ _ _ _ _ hg] at h
      exact absurd h (by simp)
    · rw [traceHit_out _ _ _ _ _ _ _ _ hg] at h
      simp only [Option.some.injEq] at h
      subst h
      exact ⟨fun e he => by simp at he, fun p hp => by simp at hp⟩
  | succ n ih =>
    intro x y res hI h
    by_cases hg : inScreen x y
    · cases hs : sampleTile (x + offsetX) (y + offsetY) with
      | error e =>
        rw [traceHit_error _ _ _ _ _ _ _ _ e hg hs] at h
        simp only [Option.some.injEq] at h
        subst h
        refine ⟨fun e' he => ?_, fun p hp => by simp at hp⟩
        simp only [Except.error.injEq] at he
        subst he
        exact ⟨x, y, hI, hg, hs⟩
      | ok t =>
        by_cases ht : t = TileWall
        · subst ht
          rw [traceHit_wall _ _ _ _ _ _ _ _ hg hs] at h
          simp only [Option.some.injEq] at h
          subst h
          refine ⟨fun e he => by simp at he, fun p hp => ?_⟩
          simp only [Except.ok.injEq, Option.some.injEq] at hp
          subst hp
          exact ⟨hI, hg, hs⟩
        · rw [traceHit_empty _ _ _ _ _ _ _ _ t hg hs ht] at h
          exact ih _ _ res (hstep x y t hI hg hs ht) h
    · rw [traceHit_out _ _ _ _ _ _ _ _ hg] at h
      simp only [Option.some.injEq] at h
      subst h
      exact ⟨fun e he => by simp at he, fun p hp => by simp at hp⟩

/-! ## Termination of the scans -/

/-- The floor of `64 * n / 64` is `n`. -/
theorem floor_mul_div (n : Int) : ⌊(64 * (n : K)) / 64⌋ = n := by
  rw [mul_div_cancel_left₀ _ (by norm_num : (64 : K) ≠ 0)]
  exact Int.floor_intCast n

/-- A grid line `y = 64 * n` inside the screen has `0 ≤ n ≤ 10`. -/
theorem inScreen_row (x : K) (n : Int) (h : inScreen x (64 * (n : K))) : 0 ≤ n ∧ n ≤ 10 := by
  obtain ⟨_, _, h0, h1⟩ := h
  rw [ScreenHeight_cast] at h1
  have h0' : (0 : K) ≤ (n : K) := by linarith
  have h1' : (n : K) < 11 := by linarith
  have h2 : (n : K) < ((11 : Int) : K) := by exact_mod_cast h1'
  exact ⟨Int.cast_nonneg.mp h0', by have := Int.cast_lt.mp h2; omega⟩

/-- A grid line `x = 64 * n` inside the screen has `0 ≤ n ≤ 14`. -/
theorem inScreen_column (y : K) (n : Int) (h : inScreen (64 * (n : K)) y) :
    0 ≤ n ∧ n ≤ 14 := by
  obtain ⟨h0, h1, _, _⟩ := h
  rw [ScreenWidth_cast] at h1
  have h0' : (0 : K) ≤ (n : K) := by linarith
  have h1' : (n : K) < 15 := by linarith
  have h2 : (n : K) < ((15 : Int) : K) := by exact_mod_cast h1'
  exact ⟨Int.cast_nonneg.mp h0', by have := Int.cast_lt.mp h2; omega⟩

/-- A loop that starts on a horizontal grid line and steps by `±64` in `y`
returns within 11 executions of its body. -/
theorem traceHit_rows_total (stepX stepY offsetX offsetY : K)
    (sampleTile : K → K → Except Failure Int) (hs : stepY = 64 ∨ stepY = -64)
    (fuel : Nat) (hf : 11 ≤ fuel) (x y : K) (hy : ∃ n : Int, y = 64 * (n : K)) :
    ∃ res, traceHit stepX stepY offsetX offsetY sampleTile fuel x y = some res := by
  rcases hs with hs | hs
  · refine traceHit_total stepX stepY offsetX offsetY sampleTile
      (fun _ y => ∃ n : Int, y = 64 * (n : K)) (fun _ y => (11 - ⌊y / 64⌋).toNat)
      ?_ ?_ fuel x y hy ?_
    · rintro x y ⟨n, rfl⟩ hg
      obtain ⟨h0, h1⟩ := inScreen_row x n hg
      simp only [floor_mul_div]
      omega
    · rintro x y t ⟨n, rfl⟩ hg _ _
      obtain ⟨h0, h1⟩ := inScreen_row x n hg
      have hnext : (64 : K) * (n : K) + stepY = 64 * ((n + 1 : Int) : K) := by
        rw [hs]; push_cast; ring
      refine ⟨⟨n + 1, hnext⟩, fun _ => ?_⟩
      simp only [hnext, floor_mul_div]
      omega
    · intro hg
      obtain ⟨n, rfl⟩ := hy
      obtain ⟨h0, h1⟩ := inScreen_row x n hg
      simp only [floor_mul_div]
      omega
  · refine traceHit_total stepX stepY offsetX offsetY sampleTile
      (fun _ y => ∃ n : Int, y = 64 * (n : K)) (fun _ y => (⌊y / 64⌋ + 1).toNat)
      ?_ ?_ fuel x y hy ?_
    · rintro x y ⟨n, rfl⟩ hg
      obtain ⟨h0, h1⟩ := inScreen_row x n hg
      simp only [floor_mul_div]
      omega
    · rintro x y t ⟨n, rfl⟩ hg _ _
      obtain ⟨h0, h1⟩ := inScreen_row x n hg
      have hnext : (64 : K) * (n : K) + stepY = 64 * ((n - 1 : Int) : K) := by
        rw [hs]; push_cast; ring
      refine ⟨⟨n - 1, hnext⟩, fun _ => ?_⟩
      simp only [hnext, floor_mul_div]
      omega
    · intro hg
      obtain ⟨n, rfl⟩ := hy
      obtain ⟨h0, h1⟩ := inScreen_row x n hg
      simp only [floor_mul_div]
      omega

/-- A loop that starts on a vertical grid line and steps by `±64` in `x`
returns within 15 executions of its body. -/
theorem traceHit_columns_total (stepX stepY offsetX offsetY : K)
    (sampleTile : K → K → Except Failure Int) (hs : stepX = 64 ∨ stepX = -64)
    (fuel : Nat) (hf : 15 ≤ fuel) (x y : K) (hx : ∃ n : Int, x = 64 * (n : K)) :
    ∃ res, traceHit stepX stepY offsetX offsetY sampleTile fuel x y = some res := by
  rcases hs with hs | hs
  · refine traceHit_total stepX stepY offsetX offsetY sampleTile
      (fun x _ => ∃ n : Int, x = 64 * (n : K)) (fun x _ => (15 - ⌊x / 64⌋).toNat)
      ?_ ?_ fuel x y hx ?_
    · rintro x y ⟨n, rfl⟩ hg
      obtain ⟨h0, h1⟩ := inScreen_column y n hg
      simp only [floor_mul_div]
      omega
    · rintro x y t ⟨n, rfl⟩ hg _ _
      obtain ⟨h0, h1⟩ := inScreen_column y n hg
      have hnext : (64 : K) * (n : K) + stepX = 64 * ((n + 1 : Int) : K) := by
        rw [hs]; push_cast; ring
      refine ⟨⟨n + 1, hnext⟩, fun _ => ?_⟩
      simp only [hnext, floor_mul_div]
      omega
    · intro hg
      obtain ⟨n, rfl⟩ := hx
      obtain ⟨h0, h1⟩ := inScreen_column y n hg
      simp only [floor_mul_div]
      omega
  · refine traceHit_total stepX stepY offsetX offsetY sampleTile
      (fun x _ => ∃ n : Int, x = 64 * (n : K)) (fun x _ => (⌊x / 64⌋ + 1).toNat)
      ?_ ?_ fuel x y hx ?_
    · rintro x y ⟨n, rfl⟩ hg
      obtain ⟨h0, h1⟩ := inScreen_column y n hg
      simp only [floor_mul_div]
      omega
    · rintro x y t ⟨n, rfl⟩ hg _ _
      obtain ⟨h0, h1⟩ := inScreen_column y n hg
      have hnext : (64 : K) * (n : K) + stepX = 64 * ((n - 1 : Int) : K) := by
        rw [hs]; push_cast; ring
      refine ⟨⟨n - 1, hnext⟩, fun _ => ?_⟩
      simp only [hnext, floor_mul_div]
      omega
    · intro hg
      obtain ⟨n, rfl⟩ := hx
      obtain ⟨h0, h1⟩ := inScreen_column y n hg
      simp only [floor_mul_div]
      omega

/-- The setup of the horizontal scan: no offset in `x`; the start lies on a
horizontal grid line, not above the one at or below the origin; a ray facing
up steps by `-64` and samples one pixel above the line, any other ray steps by
`64` and samples on the line. -/
theorem horizontalArgs_facts (M : GoMath K) (r : Ray K) :
    (r.horizontalArgs M).offsetX = 0 ∧
    (∃ n : Int, (r.horizontalArgs M).startY = 64 * (n : K) ∧ ⌊r.originY / 64⌋ ≤ n) ∧
    ((r.isRayFacingUp = true ∧ (r.horizontalArgs M).stepY = -64 ∧
        (r.horizontalArgs M).offsetY = -1) ∨
      (r.isRayFacingUp = false ∧ (r.horizontalArgs M).stepY = 64 ∧
        (r.horizontalArgs M).offsetY = 0)) := by
  have hT : ((TileSize : Int) : K) = 64 := by norm_num [TileSize]
  refine ⟨rfl, ?_, ?_⟩
  · by_cases hd : r.isRayFacingDown = true
    · refine ⟨⌊r.originY / 64⌋ + 1, ?_, by omega⟩
      simp only [Ray.horizontalArgs, hd, if_true, mathFloor, hT]
      push_cast
      ring
    · refine ⟨⌊r.originY / 64⌋, ?_, le_refl _⟩
      simp only [Ray.horizontalArgs, hd, mathFloor, hT]
      simp
      ring
  · by_cases hu : r.isRayFacingUp = true
    · left
      refine ⟨hu, ?_, ?_⟩
      · simp only [Ray.horizontalArgs, hu, if_true, hT]
        ring
      · simp only [Ray.horizontalArgs, hu, if_true]
    · right
      have hu' : r.isRayFacingUp = false := by simpa using hu
      refine ⟨hu', ?_, ?_⟩
      · simp [Ray.horizontalArgs, hu', hT]
      · simp [Ray.horizontalArgs, hu']

/-- The setup of the vertical scan: no offset in `y`; the start lies on a
vertical grid line, not left of the one at or left of the origin; a ray facing
left steps by `-64` and samples one pixel left of the line, any other ray steps
by `64` and samples on the line. -/
theorem verticalArgs_facts (M : GoMath K) (r : Ray K) :
    (r.verticalArgs M).offsetY = 0 ∧
    (∃ n : Int, (r.verticalArgs M).startX = 64 * (n : K) ∧ ⌊r.originX / 64⌋ ≤ n) ∧
    ((r.isRayFacingLeft = true ∧ (r.verticalArgs M).stepX = -64 ∧
        (r.verticalArgs M).offsetX = -1) ∨
      (r.isRayFacingLeft = false ∧ (r.verticalArgs M).stepX = 64 ∧
        (r.verticalArgs M).offsetX = 0)) := by
  have hT : ((TileSize : Int) : K) = 64 := by norm_num [TileSize]
  refine ⟨rfl, ?_, ?_⟩
  · by_cases hd : r.isRayFacingRight = true
    · refine ⟨⌊r.originX / 64⌋ + 1, ?_, by omega⟩
      simp only [Ray.verticalArgs, hd, if_true, mathFloor, hT]
      push_cast
      ring
    · refine ⟨⌊r.originX / 64⌋, ?_, le_refl _⟩
      simp only [Ray.verticalArgs, hd, mathFloor, hT]
      simp
      ring
  · by_cases hu : r.isRayFacingLeft = true
    · left
      refine ⟨hu, ?_, ?_⟩
      · simp only [Ray.verticalArgs, hu, if_true, hT]
        ring
      · simp only [Ray.verticalArgs, hu, if_true]
    · right
      have hu' : r.isRayFacingLeft = false := by simpa using hu
      refine ⟨hu', ?_, ?_⟩
      · simp [Ray.verticalArgs, hu', hT]
      · simp [Ray.verticalArgs, hu']

/-- The scans return a result for every ray and map once the fuel covers the
grid lines of the screen: 11 for the horizontal scan, 15 for the vertical one. -/
theorem scans_total (M : GoMath K) (r : Ray K) (m : Map) (fuel : Nat) :
    (11 ≤ fuel → ∃ res, (r.horizontalArgs M).hit fuel m = some res) ∧
    (15 ≤ fuel → ∃ res, (r.verticalArgs M).hit fuel m = some res) := by
  constructor
  · intro hf
    obtain ⟨_, ⟨n, hn, _⟩, hstep⟩ := horizontalArgs_facts M r
    have hs : (r.horizontalArgs M).stepY = 64 ∨ (r.horizontalArgs M).stepY = -64 := by
      rcases hstep with ⟨_, h, _⟩ | ⟨_, h, _⟩
      · exact Or.inr h
      · exact Or.inl h
    exact traceHit_rows_total _ _ _ _ _ hs fuel hf _ _ ⟨n, hn⟩
  · intro hf
    obtain ⟨_, ⟨n, hn, _⟩, hstep⟩ := verticalArgs_facts M r
    have hs : (r.verticalArgs M).stepX = 64 ∨ (r.verticalArgs M).stepX = -64 := by
      rcases hstep with ⟨_, h, _⟩ | ⟨_, h, _⟩
      · exact Or.inr h
      · exact Or.inl h
    exact traceHit_columns_total _ _ _ _ _ hs fuel hf _ _ ⟨n, hn⟩

/-- C14: every scan terminates.  For every ray and map the loop of `traceRay`
returns within `MapRows` = 11 executions of its body when called from
`findHorizontalIntersects` and within `MapColumns` = 15 when called from
`findVerticalIntersects`; the stepped coordinate changes by `TileSize` or
`-TileSize` in each iteration. -/
theorem scans_terminate (M : GoMath K) (r : Ray K) (m : Map) :
    (∃ res, r.findHorizontalIntersects M MapRows.toNat m = some res) ∧
    (∃ res, r.findVerticalIntersects M MapColumns.toNat m = some res) ∧
    ((r.horizontalArgs M).stepY = (TileSize : K) ∨
      (r.horizontalArgs M).stepY = -(TileSize : K)) ∧
    ((r.verticalArgs M).stepX = (TileSize : K) ∨
      (r.verticalArgs M).stepX = -(TileSize : K)) ∧
    MapRows = Int.tdiv ScreenHeight TileSize ∧ MapColumns = Int.tdiv ScreenWidth TileSize := by
  have hT : ((TileSize : Int) : K) = 64 := by norm_num [TileSize]
  refine ⟨?_, ?_, ?_, ?_, by decide, by decide⟩
  · obtain ⟨res, hres⟩ := (scans_total M r m MapRows.toNat).1 (by decide)
    unfold ScanArgs.hit at hres
    refine ⟨Except.map hitPoint res, ?_⟩
    simp only [Ray.findHorizontalIntersects, ScanArgs.trace, traceRay_eq_traceHit, hres,
      Option.map]
  · obtain ⟨res, hres⟩ := (scans_total M r m MapColumns.toNat).2 (by decide)
    unfold ScanArgs.hit at hres
    refine ⟨Except.map hitPoint res, ?_⟩
    simp only [Ray.findVerticalIntersects, ScanArgs.trace, traceRay_eq_traceHit, hres,
      Option.map]
  · rw [hT]
    rcases (horizontalArgs_facts M r).2.2 with ⟨_, h, _⟩ | ⟨_, h, _⟩
    · exact Or.inr h
    · exact Or.inl h
  · rw [hT]
    rcases (verticalArgs_facts M r).2.2 with ⟨_, h, _⟩ | ⟨_, h, _⟩
    · exact Or.inr h
    · exact Or.inl h

/-! ## Samples outside the map -/

/-- The conversion `int(x)` of a whole number is that number. -/
theorem toInt_intCast (z : Int) : toInt ((z : Int) : K) = z := by
  unfold toInt
  split_ifs
  · exact Int.floor_intCast z
  · exact Int.ceil_intCast z

/-- The conversion `int(x)` of a value of `[0, b)` lies in `[0, b)`. -/
theorem toInt_range (x : K) (b : Int) (h0 : 0 ≤ x) (h1 : x < (b : K)) :
    0 ≤ toInt x ∧ toInt x < b := by
  unfold toInt
  rw [if_pos h0]
  exact ⟨Int.floor_nonneg.mpr h0, Int.floor_lt.mpr h1⟩

/-- The error of a failed scan (`traceHit`) is the error of the scan
(`traceRay`). -/
theorem ScanArgs.trace_of_hit_error (a : ScanArgs K) (fuel : Nat) (m : Map) (e : Failure)
    (hh : a.hit fuel m = some (Except.error e)) :
    a.trace fuel m = some (Except.error e) := by
  unfold ScanArgs.hit at hh
  simp only [ScanArgs.trace, traceRay_eq_traceHit, hh, Option.map, Except.map]

/-- A scan (`traceRay`) that returns an error has a loop (`traceHit`) that
returns this error. -/
theorem ScanArgs.hit_of_trace_error (a : ScanArgs K) (fuel : Nat) (m : Map) (e : Failure)
    (ht : a.trace fuel m = some (Except.error e)) :
    a.hit fuel m = some (Except.error e) := by
  unfold ScanArgs.trace at ht
  rw [traceRay_eq_traceHit] at ht
  unfold ScanArgs.hit
  cases hh : traceHit a.stepX a.stepY a.offsetX a.offsetY (sampleAt m) fuel a.startX a.startY with
  | none => rw [hh] at ht; simp at ht
  | some res =>
    rw [hh] at ht
    cases res with
    | error e' =>
      simp only [Option.map, Except.map, Option.some.injEq, Except.error.injEq] at ht
      rw [ht]
    | ok p => simp [Option.map, Except.map] at ht

/-- An error of `Cast` is the error of the horizontal scan or, when that scan
succeeded, the error of the vertical scan. -/
theorem Cast_error_source (M : GoMath K) (fuel : Nat) (r : Ray K) (m : Map) (e : Failure)
    (h : r.Cast M fuel m = some (Except.error e)) :
    (r.horizontalArgs M).hit fuel m = some (Except.error e) ∨
      (r.verticalArgs M).hit fuel m = some (Except.error e) := by
  unfold Ray.Cast at h
  split at h
  · exact absurd h (by simp)
  · rename_i e' hD
    simp only [Option.some.injEq, Except.error.injEq] at h
    subst h
    unfold Ray.hitDistances at hD
    split at hD
    · exact absurd hD (by simp)
    · rename_i e'' hH
      simp only [Option.some.injEq, Except.error.injEq] at hD
      subst hD
      exact Or.inl (ScanArgs.hit_of_trace_error _ _ _ _ hH)
    · split at hD
      · exact absurd hD (by simp)
      · rename_i e'' hV
        simp only [Option.some.injEq, Except.error.injEq] at hD
        subst hD
        exact Or.inr (ScanArgs.hit_of_trace_error _ _ _ _ hV)
      · exact absurd hD (by simp)
  · exact absurd h (by simp)

/-- An error of the horizontal scan is the error of `Cast`. -/
theorem Cast_error_of_horizontal (M : GoMath K) (fuel : Nat) (r : Ray K) (m : Map)
    (e : Failure) (h : (r.horizontalArgs M).hit fuel m = some (Except.error e)) :
    r.Cast M fuel m = some (Except.error e) := by
  have h1 := ScanArgs.trace_of_hit_error _ fuel m e h
  simp only [Ray.Cast, Ray.hitDistances, Ray.findHorizontalIntersects, h1]

/-- The horizontal scan of the ray from (900, 1/20) at angle 0 starts at
(400, 0) facing up; its first sample is the pixel (400, -1), outside every
map. -/
theorem top_edge_scan (M : GoMath K) (hM : M.Exact) (m : Map) (fuel : Nat) :
    ((NewRay M 900 (1 / 20) 0).horizontalArgs M).hit (fuel + 1) m =
      some (Except.error (Failure.outOfRange 400 (-1))) := by
  have hargs : (NewRay M 900 (1 / 20) 0).horizontalArgs M =
      { startX := 400, startY := 0, stepX := 640000, stepY := -64,
        offsetX := 0, offsetY := -1 } := by
    rw [NewRay_zero M hM]
    simp [Ray.horizontalArgs, hM.tan_zero, mathFloor, TileSize]
    norm_num
  rw [hargs]
  simp only [ScanArgs.hit]
  exact traceHit_error _ _ _ _ _ _ _ _ _
    (by norm_num [ScreenWidth, ScreenHeight, TileSize, MapColumns, MapRows])
    (by
      have hy : ((0 : K) + -1) = (((-1 : Int) : Int) : K) := by norm_num
      rw [sampleAt_eval m _ _ 400 (-1) (by norm_num [toInt]) (by rw [hy, toInt_intCast])]
      simp [Map.AtPixel])

/-- C16 fails: the all-empty map of 11 by 15 tiles of size 64 satisfies the
invariant and has the pixel extent of the screen, yet the cast of the ray from
(900, 1/20) at angle 0 returns the error of `AtPixel(400, -1)`. -/
theorem Cast_outOfRange_top_edge :
    (openMap.Grid.length : Int) = openMap.Rows * openMap.Columns ∧
    openMap.Columns * openMap.TileSize = ScreenWidth ∧
    openMap.Rows * openMap.TileSize = ScreenHeight ∧
    openMap.AtPixel (toInt (900 : ℝ)) (toInt (1 / 20 : ℝ)) = Except.ok TileEmpty ∧
    (NewRay realMath 900 (1 / 20) 0).Cast realMath 15 openMap =
      some (Except.error (Failure.outOfRange 400 (-1))) := by
  refine ⟨by rfl, by decide, by decide, ?_, ?_⟩
  · have h1 : toInt (900 : ℝ) = 900 := by norm_num [toInt]
    have h2 : toInt (1 / 20 : ℝ) = 0 := by norm_num [toInt]
    rw [h1, h2]
    rfl
  · exact Cast_error_of_horizontal realMath 15 _ openMap _
      (top_edge_scan realMath realMath_exact openMap 14)

/-- On a map with the pixel extent of the screen, a sample whose integer
coordinates lie in `[0, 960) × [0, 704)` returns a tile. -/
theorem sampleAt_ok (m : Map) (hm : m.fitsScreen) (x y : K) (i j : Int)
    (hi : toInt x = i) (hj : toInt y = j) (hi0 : 0 ≤ i ∧ i < 960) (hj0 : 0 ≤ j ∧ j < 704) :
    ∃ t, sampleAt m x y = Except.ok t := by
  obtain ⟨hT, hlen, hW, hH⟩ := hm
  have hW' : m.Columns * m.TileSize = 960 := by rw [hW]; decide
  have hH' : m.Rows * m.TileSize = 704 := by rw [hH]; decide
  rw [sampleAt_eval m x y i j hi hj]
  exact AtPixel_ok_of_inBounds m i j hT hlen (by omega) (by omega)

/-- A point inside the screen has an `x` whose integer part lies in
`[0, 960)`. -/
theorem inScreen_toInt_x (x y : K) (h : inScreen x y) : 0 ≤ toInt x ∧ toInt x < 960 := by
  obtain ⟨h0, h1, _, _⟩ := h
  rw [ScreenWidth_cast] at h1
  exact toInt_range x 960 h0 (by exact_mod_cast h1)

/-- A point inside the screen has a `y` whose integer part lies in
`[0, 704)`. -/
theorem inScreen_toInt_y (x y : K) (h : inScreen x y) : 0 ≤ toInt y ∧ toInt y < 704 := by
  obtain ⟨_, _, h0, h1⟩ := h
  rw [ScreenHeight_cast] at h1
  exact toInt_range y 704 h0 (by exact_mod_cast h1)

/-- On a map with the pixel extent of the screen the horizontal scan fails only
for a ray facing up, on the sample taken at pixel row -1 from the grid line
`y = 0`. -/
theorem horizontal_error_cases (M : GoMath K) (r : Ray K) (m : Map) (hm : m.fitsScreen)
    (fuel : Nat) (e : Failure)
    (h : (r.horizontalArgs M).hit fuel m = some (Except.error e)) :
    r.isRayFacingUp = true ∧
      ∃ x : Int, 0 ≤ x ∧ x < ScreenWidth ∧ e = Failure.outOfRange x (-1) := by
  obtain ⟨hoff, ⟨n0, hn0, _⟩, hcases⟩ := horizontalArgs_facts M r
  have hstepY : (r.horizontalArgs M).stepY = 64 ∨ (r.horizontalArgs M).stepY = -64 := by
    rcases hcases with ⟨_, h, _⟩ | ⟨_, h, _⟩
    · exact Or.inr h
    · exact Or.inl h
  unfold ScanArgs.hit at h
  obtain ⟨herr, _⟩ := traceHit_provenance _ _ _ _ (sampleAt m)
    (fun _ y => ∃ n : Int, y = 64 * (n : K))
    (by
      rintro x y t ⟨n, rfl⟩ _ _ _
      rcases hstepY with hs | hs
      · exact ⟨n + 1, by rw [hs]; push_cast; ring⟩
      · exact ⟨n - 1, by rw [hs]; push_cast; ring⟩)
    fuel _ _ _ ⟨n0, hn0⟩ h
  obtain ⟨x', y', ⟨n, rfl⟩, hg, hs⟩ := herr e rfl
  obtain ⟨hnlo, hnhi⟩ := inScreen_row x' n hg
  have hix := inScreen_toInt_x x' _ hg
  rw [hoff, add_zero] at hs
  rcases hcases with ⟨hup, _, hoy⟩ | ⟨_, _, hoy⟩
  · rw [hoy] at hs
    have hy : (64 : K) * (n : K) + -1 = (((64 * n - 1 : Int)) : K) := by push_cast; ring
    rw [hy] at hs
    by_cases hn : n = 0
    · subst hn
      rw [sampleAt_eval m _ _ (toInt x') (-1) rfl (by rw [toInt_intCast]; rfl)] at hs
      have hneg : ((-1 : Int) < 0) := by decide
      simp only [Map.AtPixel, hneg, true_or, or_true, if_true, Except.error.injEq] at hs
      exact ⟨hup, toInt x', hix.1, by
        have : ScreenWidth = 960 := by decide
        rw [this]; exact hix.2, hs.symm⟩
    · obtain ⟨t, ht⟩ := sampleAt_ok m hm x' (((64 * n - 1 : Int)) : K) (toInt x') (64 * n - 1)
        rfl (toInt_intCast _) hix (by omega)
      rw [ht] at hs
      exact absurd hs (by simp)
  · rw [hoy, add_zero] at hs
    have hy : (64 : K) * (n : K) = (((64 * n : Int)) : K) := by push_cast; ring
    rw [hy] at hs
    obtain ⟨t, ht⟩ := sampleAt_ok m hm x' (((64 * n : Int)) : K) (toInt x') (64 * n)
      rfl (toInt_intCast _) hix (by omega)
    rw [ht] at hs
    exact absurd hs (by simp)

/-- On a map with the pixel extent of the screen the vertical scan fails only
for a ray facing left, on the sample taken at pixel column -1 from the grid
line `x = 0`. -/
theorem vertical_error_cases (M : GoMath K) (r : Ray K) (m : Map) (hm : m.fitsScreen)
    (fuel : Nat) (e : Failure)
    (h : (r.verticalArgs M).hit fuel m = some (Except.error e)) :
    r.isRayFacingLeft = true ∧
      ∃ y : Int, 0 ≤ y ∧ y < ScreenHeight ∧ e = Failure.outOfRange (-1) y := by
  obtain ⟨hoff, ⟨n0, hn0, _⟩, hcases⟩ := verticalArgs_facts M r
  have hstepX : (r.verticalArgs M).stepX = 64 ∨ (r.verticalArgs M).stepX = -64 := by
    rcases hcases with ⟨_, h, _⟩ | ⟨_, h, _⟩
    · exact Or.inr h
    · exact Or.inl h
  unfold ScanArgs.hit at h
  obtain ⟨herr, _⟩ := traceHit_provenance _ _ _ _ (sampleAt m)
    (fun x _ => ∃ n : Int, x = 64 * (n : K))
    (by
      rintro x y t ⟨n, rfl⟩ _ _ _
      rcases hstepX with hs | hs
      · exact ⟨n + 1, by rw [hs]; push_cast; ring⟩
      · exact ⟨n - 1, by rw [hs]; push_cast; ring⟩)
    fuel _ _ _ ⟨n0, hn0⟩ h
  obtain ⟨x', y', ⟨n, rfl⟩, hg, hs⟩ := herr e rfl
  obtain ⟨hnlo, hnhi⟩ := inScreen_column y' n hg
  have hiy := inScreen_toInt_y _ y' hg
  rw [hoff, add_zero] at hs
  rcases hcases with ⟨hleft, _, hox⟩ | ⟨_, _, hox⟩
  · rw [hox] at hs
    have hx : (64 : K) * (n : K) + -1 = (((64 * n - 1 : Int)) : K) := by push_cast; ring
    rw [hx] at hs
    by_cases hn : n = 0
    · subst hn
      rw [sampleAt_eval m _ _ (-1) (toInt y') (by rw [toInt_intCast]; rfl) rfl] at hs
      have hneg : ((-1 : Int) < 0) := by decide
      simp only [Map.AtPixel, hneg, true_or, if_true, Except.error.injEq] at hs
      exact ⟨hleft, toInt y', hiy.1, by
        have : ScreenHeight = 704 := by decide
        rw [this]; exact hiy.2, hs.symm⟩
    · obtain ⟨t, ht⟩ := sampleAt_ok m hm (((64 * n - 1 : Int)) : K) y' (64 * n - 1) (toInt y')
        (toInt_intCast _) rfl (by omega) hiy
      rw [ht] at hs
      exact absurd hs (by simp)
  · rw [hox, add_zero] at hs
    have hx : (64 : K) * (n : K) = (((64 * n : Int)) : K) := by push_cast; ring
    rw [hx] at hs
    obtain ⟨t, ht⟩ := sampleAt_ok m hm (((64 * n : Int)) : K) y' (64 * n) (toInt y')
      (toInt_intCast _) rfl (by omega) hiy
    rw [ht] at hs
    exact absurd hs (by simp)

/-- C16 amended: on a map with positive tile size, `Rows * Columns` tiles and
the pixel extent of the screen, the loop guard keeps every sample inside the
map except the one taken at offset -1 from the grid line 0; the only error
`Cast` can return is `OutOfRange` for a sample at pixel row -1 (horizontal scan
of a ray facing up) or pixel column -1 (vertical scan of a ray facing left). -/
theorem Cast_error_cases (M : GoMath K) (r : Ray K) (m : Map) (hm : m.fitsScreen)
    (fuel : Nat) (e : Failure) (h : r.Cast M fuel m = some (Except.error e)) :
    (r.isRayFacingUp = true ∧
      ∃ x : Int, 0 ≤ x ∧ x < ScreenWidth ∧ e = Failure.outOfRange x (-1)) ∨
    (r.isRayFacingLeft = true ∧
      ∃ y : Int, 0 ≤ y ∧ y < ScreenHeight ∧ e = Failure.outOfRange (-1) y) := by
  rcases Cast_error_source M fuel r m e h with hH | hV
  · exact Or.inl (horizontal_error_cases M r m hm fuel e hH)
  · exact Or.inr (vertical_error_cases M r m hm fuel e hV)

/-- The all-empty map has the pixel extent of the screen. -/
theorem openMap_fitsScreen : openMap.fitsScreen :=
  ⟨by decide, by rfl, by decide, by decide⟩

/-- Witness for C16 amended: the failing cast from (900, 1/20) at angle 0 on the
all-empty map is of the first kind. -/
theorem Cast_error_cases_witness :
    ((NewRay realMath 900 (1 / 20) 0).isRayFacingUp = true ∧
      ∃ x : Int, 0 ≤ x ∧ x < ScreenWidth ∧
        Failure.outOfRange 400 (-1) = Failure.outOfRange x (-1)) ∨
    ((NewRay realMath 900 (1 / 20) 0).isRayFacingLeft = true ∧
      ∃ y : Int, 0 ≤ y ∧ y < ScreenHeight ∧
        Failure.outOfRange 400 (-1) = Failure.outOfRange (-1) y) :=
  Cast_error_cases realMath (NewRay realMath 900 (1 / 20) 0) openMap openMap_fitsScreen 15
    (Failure.outOfRange 400 (-1))
    (Cast_error_of_horizontal realMath 15 _ openMap _
      (top_edge_scan realMath realMath_exact openMap 14))

/-! ## The built-in map: border walls stop every scan -/

/-- The built-in map has the pixel extent of the screen. -/
theorem builtin_fitsScreen : (NewMap 11 15 64).fitsScreen :=
  ⟨by decide, by rfl, by decide, by decide⟩

/-- The top row of the built-in map is made of walls. -/
theorem builtin_row0_wall (i j : Int) (hi : 0 ≤ i ∧ i < 960) (hj : 0 ≤ j ∧ j < 64) :
    (NewMap 11 15 64).AtPixel i j = Except.ok TileWall := by
  obtain ⟨hc0, hc1⟩ := tdiv_lt_of_lt_mul i 15 64 hi.1 (by decide) (by omega)
  obtain ⟨hr0, hr1⟩ := tdiv_lt_of_lt_mul j 1 64 hj.1 (by decide) (by omega)
  have hr : Int.tdiv j 64 = 0 := by omega
  have hguard : ¬ (i < 0 ∨ j < 0 ∨ i ≥ 15 * 64 ∨ j ≥ 11 * 64) := by omega
  have key : ∀ c : Int, 0 ≤ c → c < 15 →
      (if (0 : Int) * 15 + c < 0 then (Except.error Failure.runtimePanic : Except Failure Int)
        else match builtinGrid[((0 : Int) * 15 + c).toNat]? with
          | some tile => Except.ok tile
          | none => Except.error Failure.runtimePanic) = Except.ok TileWall := by
    intro c h0 h1
    interval_cases c <;> rfl
  simp only [Map.AtPixel, NewMap, hguard, if_false, hr]
  exact key _ hc0 hc1

/-- The left column of the built-in map is made of walls. -/
theorem builtin_col0_wall (i j : Int) (hi : 0 ≤ i ∧ i < 64) (hj : 0 ≤ j ∧ j < 704) :
    (NewMap 11 15 64).AtPixel i j = Except.ok TileWall := by
  obtain ⟨hc0, hc1⟩ := tdiv_lt_of_lt_mul i 1 64 hi.1 (by decide) (by omega)
  obtain ⟨hr0, hr1⟩ := tdiv_lt_of_lt_mul j 11 64 hj.1 (by decide) (by omega)
  have hc : Int.tdiv i 64 = 0 := by omega
  have hguard : ¬ (i < 0 ∨ j < 0 ∨ i ≥ 15 * 64 ∨ j ≥ 11 * 64) := by omega
  have key : ∀ c : Int, 0 ≤ c → c < 11 →
      (if c * 15 + 0 < 0 then (Except.error Failure.runtimePanic : Except Failure Int)
        else match builtinGrid[(c * 15 + 0).toNat]? with
          | some tile => Except.ok tile
          | none => Except.error Failure.runtimePanic) = Except.ok TileWall := by
    intro c h0 h1
    interval_cases c <;> rfl
  simp only [Map.AtPixel, NewMap, hguard, if_false, hc]
  exact key _ hr0 hr1

/-- A point whose pixel is an empty tile of the built-in map lies at least one
tile away from the top and left edges. -/
theorem builtin_empty_origin (ox oy : K)
    (h : (NewMap 11 15 64).AtPixel (toInt ox) (toInt oy) = Except.ok TileEmpty) :
    1 ≤ ⌊ox / 64⌋ ∧ 1 ≤ ⌊oy / 64⌋ := by
  have hne : (Except.ok TileWall : Except Failure Int) ≠ Except.ok TileEmpty := by
    simp [TileWall, TileEmpty]
  have hin : ¬ (toInt ox < 0 ∨ toInt oy < 0 ∨ toInt ox ≥ 15 * 64 ∨ toInt oy ≥ 11 * 64) := by
    intro hg
    simp only [Map.AtPixel, NewMap, hg, if_true] at h
    exact absurd h (by simp)
  have hx : 64 ≤ toInt ox := by
    by_contra hlt
    rw [builtin_col0_wall (toInt ox) (toInt oy) (by omega) (by omega)] at h
    exact hne h
  have hy : 64 ≤ toInt oy := by
    by_contra hlt
    rw [builtin_row0_wall (toInt ox) (toInt oy) (by omega) (by omega)] at h
    exact hne h
  have key : ∀ z : K, 64 ≤ toInt z → 1 ≤ ⌊z / 64⌋ := by
    intro z hz
    unfold toInt at hz
    split_ifs at hz with h0
    · have h1 : ((64 : Int) : K) ≤ z := Int.le_floor.mp hz
      rw [Int.le_floor]
      rw [le_div_iff₀ (by norm_num)]
      push_cast at h1 ⊢
      linarith
    · have h1 : ⌈z⌉ ≤ 0 := Int.ceil_le.mpr (by push_cast; linarith)
      omega
  exact ⟨key ox hx, key oy hy⟩

/-- On the built-in map the horizontal scan of a ray whose origin lies below
the top row never fails: a ray facing up stops on the top wall row before it
can reach the grid line `y = 0`. -/
theorem builtin_horizontal_safe (M : GoMath K) (r : Ray K) (ho : 1 ≤ ⌊r.originY / 64⌋)
    (fuel : Nat) (e : Failure) :
    (r.horizontalArgs M).hit fuel (NewMap 11 15 64) ≠ some (Except.error e) := by
  intro h
  obtain ⟨hoff, ⟨n0, hn0, hn0'⟩, hcases⟩ := horizontalArgs_facts M r
  unfold ScanArgs.hit at h
  have hsample : ∀ (x' : K) (n : Int), inScreen x' (64 * (n : K)) → 1 ≤ n →
      ∃ t, sampleAt (NewMap 11 15 64) (x' + (r.horizontalArgs M).offsetX)
          (64 * (n : K) + (r.horizontalArgs M).offsetY) = Except.ok t ∧
        (t ≠ TileWall → (r.horizontalArgs M).stepY = -64 → 2 ≤ n) := by
    intro x' n hg hn
    obtain ⟨hnlo, hnhi⟩ := inScreen_row x' n hg
    have hix := inScreen_toInt_x x' _ hg
    rw [hoff, add_zero]
    rcases hcases with ⟨_, hst, hoy⟩ | ⟨_, hst, hoy⟩
    · rw [hoy]
      have hy : (64 : K) * (n : K) + -1 = (((64 * n - 1 : Int)) : K) := by push_cast; ring
      rw [hy]
      obtain ⟨t, ht⟩ := sampleAt_ok (NewMap 11 15 64) builtin_fitsScreen x'
        (((64 * n - 1 : Int)) : K) (toInt x') (64 * n - 1) rfl (toInt_intCast _) hix (by omega)
      refine ⟨t, ht, fun hne _ => ?_⟩
      by_contra hlt
      have hn1 : n = 1 := by omega
      subst hn1
      rw [sampleAt_eval (NewMap 11 15 64) _ _ (toInt x') (64 * 1 - 1) rfl (toInt_intCast _),
        builtin_row0_wall (toInt x') (64 * 1 - 1) hix (by omega)] at ht
      simp only [Except.ok.injEq] at ht
      exact hne ht.symm
    · rw [hoy, add_zero]
      have hy : (64 : K) * (n : K) = (((64 * n : Int)) : K) := by push_cast; ring
      rw [hy]
      obtain ⟨t, ht⟩ := sampleAt_ok (NewMap 11 15 64) builtin_fitsScreen x'
        (((64 * n : Int)) : K) (toInt x') (64 * n) rfl (toInt_intCast _) hix (by omega)
      refine ⟨t, ht, fun _ hs => ?_⟩
      rw [hst] at hs
      norm_num at hs
  obtain ⟨herr, _⟩ := traceHit_provenance _ _ _ _ (sampleAt (NewMap 11 15 64))
    (fun _ y => ∃ n : Int, y = 64 * (n : K) ∧ 1 ≤ n)
    (by
      rintro x y t ⟨n, rfl, hn⟩ hg hs ht
      obtain ⟨t', ht', h2⟩ := hsample x n hg hn
      rw [hs] at ht'
      simp only [Except.ok.injEq] at ht'
      subst ht'
      rcases hcases with ⟨_, hst, _⟩ | ⟨_, hst, _⟩
      · have := h2 ht hst
        exact ⟨n - 1, by rw [hst]; push_cast; ring, by omega⟩
      · exact ⟨n + 1, by rw [hst]; push_cast; ring, by omega⟩)
    fuel _ _ _ ⟨n0, hn0, by omega⟩ h
  obtain ⟨x', y', ⟨n, rfl, hn⟩, hg, hs⟩ := herr e rfl
  obtain ⟨t, ht, _⟩ := hsample x' n hg hn
  rw [ht] at hs
  exact absurd hs (by simp)

/-- On the built-in map the vertical scan of a ray whose origin lies right of
the left column never fails: a ray facing left stops on the left wall column
before it can reach the grid line `x = 0`. -/
theorem builtin_vertical_safe (M : GoMath K) (r : Ray K) (ho : 1 ≤ ⌊r.originX / 64⌋)
    (fuel : Nat) (e : Failure) :
    (r.verticalArgs M).hit fuel (NewMap 11 15 64) ≠ some (Except.error e) := by
  intro h
  obtain ⟨hoff, ⟨n0, hn0, hn0'⟩, hcases⟩ := verticalArgs_facts M r
  unfold ScanArgs.hit at h
  have hsample : ∀ (y' : K) (n : Int), inScreen (64 * (n : K)) y' → 1 ≤ n →
      ∃ t, sampleAt (NewMap 11 15 64) (64 * (n : K) + (r.verticalArgs M).offsetX)
          (y' + (r.verticalArgs M).offsetY) = Except.ok t ∧
        (t ≠ TileWall → (r.verticalArgs M).stepX = -64 → 2 ≤ n) := by
    intro y' n hg hn
    obtain ⟨hnlo, hnhi⟩ := inScreen_column y' n hg
    have hiy := inScreen_toInt_y _ y' hg
    rw [hoff, add_zero]
    rcases hcases with ⟨_, hst, hox⟩ | ⟨_, hst, hox⟩
    · rw [hox]
      have hx : (64 : K) * (n : K) + -1 = (((64 * n - 1 : Int)) : K) := by push_cast; ring
      rw [hx]
      obtain ⟨t, ht⟩ := sampleAt_ok (NewMap 11 15 64) builtin_fitsScreen
        (((64 * n - 1 : Int)) : K) y' (64 * n - 1) (toInt y') (toInt_intCast _) rfl
        (by omega) hiy
      refine ⟨t, ht, fun hne _ => ?_⟩
      by_contra hlt
      have hn1 : n = 1 := by omega
      subst hn1
      rw [sampleAt_eval (NewMap 11 15 64) _ _ (64 * 1 - 1) (toInt y') (toInt_intCast _) rfl,
        builtin_col0_wall (64 * 1 - 1) (toInt y') (by omega) hiy] at ht
      simp only [Except.ok.injEq] at ht
      exact hne ht.symm
    · rw [hox, add_zero]
      have hx : (64 : K) * (n : K) = (((64 * n : Int)) : K) := by push_cast; ring
      rw [hx]
      obtain ⟨t, ht⟩ := sampleAt_ok (NewMap 11 15 64) builtin_fitsScreen
        (((64 * n : Int)) : K) y' (64 * n) (toInt y') (toInt_intCast _) rfl (by omega) hiy
      refine ⟨t, ht, fun _ hs => ?_⟩
      rw [hst] at hs
      norm_num at hs
  obtain ⟨herr, _⟩ := traceHit_provenance _ _ _ _ (sampleAt (NewMap 11 15 64))
    (fun x _ => ∃ n : Int, x = 64 * (n : K) ∧ 1 ≤ n)
    (by
      rintro x y t ⟨n, rfl, hn⟩ hg hs ht
      obtain ⟨t', ht', h2⟩ := hsample y n hg hn
      rw [hs] at ht'
      simp only [Except.ok.injEq] at ht'
      subst ht'
      rcases hcases with ⟨_, hst, _⟩ | ⟨_, hst, _⟩
      · have := h2 ht hst
        exact ⟨n - 1, by rw [hst]; push_cast; ring, by omega⟩
      · exact ⟨n + 1, by rw [hst]; push_cast; ring, by omega⟩)
    fuel _ _ _ ⟨n0, hn0, by omega⟩ h
  obtain ⟨x', y', ⟨n, rfl, hn⟩, hg, hs⟩ := herr e rfl
  obtain ⟨t, ht, _⟩ := hsample y' n hg hn
  rw [ht] at hs
  exact absurd hs (by simp)

/-- C19: on the built-in map `NewMap(MapRows, MapColumns, TileSize)`, the cast
of a ray whose origin lies in an empty tile returns no error, for every angle:
with fuel for the 15 grid lines of the screen `Cast` returns a ray. -/
theorem Cast_builtin_no_error (M : GoMath K) (ox oy θ : K) (fuel : Nat)
    (hempty : (NewMap MapRows MapColumns TileSize).AtPixel (toInt ox) (toInt oy) =
      Except.ok TileEmpty) :
    ∃ r', (NewRay M ox oy θ).Cast M (fuel + 15) (NewMap MapRows MapColumns TileSize) =
      some (Except.ok r') := by
  have hmap : NewMap MapRows MapColumns TileSize = NewMap 11 15 64 := rfl
  rw [hmap] at hempty ⊢
  obtain ⟨hx, hy⟩ := builtin_empty_origin ox oy hempty
  have hox : (NewRay M ox oy θ).originX = ox := rfl
  have hoy : (NewRay M ox oy θ).originY = oy := rfl
  obtain ⟨resH, hH⟩ := (scans_total M (NewRay M ox oy θ) (NewMap 11 15 64) (fuel + 15)).1
    (by omega)
  obtain ⟨resV, hV⟩ := (scans_total M (NewRay M ox oy θ) (NewMap 11 15 64) (fuel + 15)).2
    (by omega)
  cases resH with
  | error e =>
    exact absurd hH (builtin_horizontal_safe M _ (by rw [hoy]; exact hy) _ e)
  | ok hh =>
    cases resV with
    | error e =>
      exact absurd hV (builtin_vertical_safe M _ (by rw [hox]; exact hx) _ e)
    | ok vh =>
      have hD := hitDistances_of_hits M (fuel + 15) _ (NewMap 11 15 64) hh vh hH hV
      exact ⟨_, Cast_of_hitDistances M _ _ _ _ _ hD⟩

/-- Witness for C19: the ray from the centre (480, 352) of the built-in map at
the real angle 1. -/
theorem Cast_builtin_no_error_witness :
    ∃ r', (NewRay realMath 480 352 1).Cast realMath (0 + 15)
        (NewMap MapRows MapColumns TileSize) = some (Except.ok r') :=
  Cast_builtin_no_error realMath 480 352 1 0 (by
    have h1 : toInt (480 : ℝ) = 480 := by norm_num [toInt]
    have h2 : toInt (352 : ℝ) = 352 := by norm_num [toInt]
    rw [h1, h2]
    rfl)

/-! ## Rounding to the nearest `float64` -/

/-- The real sine, cosine and tangent have the facts of `GoMath.Trig` at every
angle of `[0, 2π)`. -/
theorem realMath_trig (a : ℝ) (h0 : 0 ≤ a) (h1 : a < 2 * Real.pi) : realMath.Trig a where
  tan_eq := Real.tan_eq_sin_div_cos a
  sin_pos := fun h => Real.sin_pos_of_pos_of_lt_pi h.1 h.2
  sin_nonpos := fun h => by
    have hpi := Real.pi_pos
    simp only [realMath] at h ⊢
    rcases le_or_lt a 0 with ha | ha
    · have : a = 0 := le_antisymm ha h0
      rw [this, Real.sin_zero]
    · have hge : Real.pi ≤ a := by
        by_contra hlt
        exact h ⟨ha, not_le.mp hlt⟩
      have : Real.sin a = Real.sin (a - 2 * Real.pi) := (Real.sin_sub_two_pi a).symm
      rw [this]
      exact Real.sin_nonpos_of_nonnpos_of_neg_pi_le (by linarith) (by linarith)
  cos_pos := fun h => by
    have hpi := Real.pi_pos
    simp only [realMath] at h ⊢
    rcases h with h | h
    · exact Real.cos_pos_of_mem_Ioo ⟨by linarith, by linarith⟩
    · have : Real.cos a = Real.cos (a - 2 * Real.pi) := (Real.cos_sub_two_pi a).symm
      rw [this]
      exact Real.cos_pos_of_mem_Ioo ⟨by linarith, by linarith⟩
  cos_nonpos := fun h => by
    have hpi := Real.pi_pos
    simp only [realMath] at h ⊢
    push_neg at h
    exact Real.cos_nonpos_of_pi_div_two_le_of_le (by linarith) (by linarith)

end FloatFacts

end Raycasting
